import Mathlib

/-!
# Verification of the webfiddle content-rewriting proxy

A shallow embedding of the core of the webfiddle repository:

* `src/mirror/transform_content.py` — the URL classifier / rewriter
  (`clean_path`, `transform_content`, `TransformContent`);
* `src/mirror/mirror.py` — the content cache (`get_by_key_name`,
  `fetch_and_store`) and the proxy pipeline (`proxy_route`);
* `src/blacklist.py` — the static denylist.

Strings are modelled as `List Char` (`Str`).  The Python standard-library
functions the source relies on (`str.strip`, `str.split`, `urllib.parse.urlparse`,
`os.path.normpath`, `os.path.join`, `os.path.dirname`, `re.sub` for the four
fixed substitution patterns) are modelled explicitly, following CPython's
documented behaviour on the input shapes this code feeds them.
-/

set_option maxRecDepth 20000

namespace Webfiddle

/-- Strings are modelled as lists of characters. -/
abbrev Str := List Char

/-- Convert a Lean string literal to the `List Char` model. -/
def str (s : String) : Str := s.data

/-- Characters `"` and `'`, the quote characters of the rewriting regexes. -/
def isQuoteCh (c : Char) : Bool := c == '"' || c == '\''

/-- Python's `\s` whitespace class (ASCII part, which is all this code meets). -/
def isPySpace (c : Char) : Bool :=
  c == ' ' || c == '\t' || c == '\n' || c == '\r' || c == '\x0b' || c == '\x0c'

/-- Python `s.strip(chars)`: remove leading and trailing characters in the class. -/
def stripChars (p : Char → Bool) (l : Str) : Str :=
  ((l.dropWhile p).reverse.dropWhile p).reverse

/-- Python `s.lstrip('/')`. -/
def lstripSlash (l : Str) : Str := l.dropWhile (· == '/')

/-- Python `s.rstrip('/')`. -/
def rstripSlash (l : Str) : Str := (l.reverse.dropWhile (· == '/')).reverse

/-- Python `s.lower()` (ASCII). -/
def pyLower (l : Str) : Str := l.map Char.toLower

/-- Split at the first occurrence of `c`: Python `s.split(c, 1)`.
If `c` does not occur the second component is `[]` (which is also what the
callers get from Python's "not present" case, since they only ever test the
second component for emptiness). -/
def splitFirst (c : Char) : Str → Str × Str
  | [] => ([], [])
  | a :: as =>
    if a == c then ([], as)
    else
      let r := splitFirst c as
      (a :: r.1, r.2)

/-- First index of `c` in `l`, Python `s.find(c)` (as an `Option`). -/
def indexOfCh (c : Char) : Str → Option Nat
  | [] => none
  | a :: as => if a == c then some 0 else (indexOfCh c as).map (· + 1)

/-- Helper for `lastIndexOf`. -/
def lastIdxGo (c : Char) : Str → Nat → Option Nat → Option Nat
  | [], _, acc => acc
  | a :: as, i, acc => lastIdxGo c as (i + 1) (if a == c then some i else acc)

/-- Last index of `c` in `l`, Python `s.rfind(c)` (as an `Option`). -/
def lastIndexOf (c : Char) (l : Str) : Option Nat := lastIdxGo c l 0 none

/-- Python `s.find(c, start)` (as an `Option`). -/
def findFrom (c : Char) (l : Str) (start : Nat) : Option Nat :=
  (indexOfCh c (l.drop start)).map (· + start)

/-- Python substring containment `needle in hay`. -/
def containsSub (needle : Str) : Str → Bool
  | [] => needle.isEmpty
  | c :: cs => needle.isPrefixOf (c :: cs) || containsSub needle cs

/-- Python `hay.find(needle)` for substrings (as an `Option`). -/
def findSub (needle : Str) : Str → Option Nat
  | [] => if needle.isEmpty then some 0 else none
  | c :: cs =>
    if needle.isPrefixOf (c :: cs) then some 0
    else (findSub needle cs).map (· + 1)

/-- Python `s.split(c)` (split on every occurrence). -/
def splitAllCh (c : Char) : Str → List Str
  | [] => [[]]
  | a :: as =>
    match splitAllCh c as with
    | [] => [[]]
    | h :: t => if a == c then [] :: h :: t else (a :: h) :: t

/-- `re.sub(r'//+', '/', path)`: collapse every run of slashes to one. -/
def collapseSlashes : Str → Str
  | [] => []
  | c :: rest =>
    if c == '/' then '/' :: collapseSlashes (rest.dropWhile (· == '/'))
    else c :: collapseSlashes rest
termination_by l => l.length
decreasing_by
  · have h : ∀ (l : List Char), (l.dropWhile (· == '/')).length ≤ l.length := by
      intro l
      induction l with
      | nil => simp [List.dropWhile]
      | cons a as ih =>
        simp only [List.dropWhile]
        split
        · exact Nat.le_succ_of_le ih
        · simp
    simp only [List.length_cons]
    exact Nat.lt_succ_of_le (h _)
  · simp

/-- `posixpath.dirname`. -/
def pyDirname (p : Str) : Str :=
  let i := match lastIndexOf '/' p with | some j => j + 1 | none => 0
  let head := p.take i
  if head ≠ [] ∧ ¬ (head.all (· == '/')) then rstripSlash head else head

/-- `posixpath.join` for two components (the only arity the source uses). -/
def pyJoin (a b : Str) : Str :=
  if b.take 1 = ['/'] then b
  else if a = [] ∨ a.getLast? = some '/' then a ++ b
  else a ++ '/' :: b

/-- The component loop of `posixpath.normpath` (a transcription of CPython's
loop over `path.split('/')`, carrying the accumulated components). -/
def normpathComps (initSl : Nat) : List Str → List Str → List Str
  | [], acc => acc
  | comp :: rest, acc =>
    if comp = [] ∨ comp = ['.'] then normpathComps initSl rest acc
    else if comp ≠ ['.', '.'] ∨ (initSl = 0 ∧ acc = []) ∨ acc.getLast? = some ['.', '.'] then
      normpathComps initSl rest (acc ++ [comp])
    else if acc ≠ [] then normpathComps initSl rest acc.dropLast
    else normpathComps initSl rest acc

/-- `posixpath.normpath`. -/
def normpath (p : Str) : Str :=
  if p = [] then ['.']
  else
    let initSl : Nat :=
      if p.take 1 = ['/'] then
        (if p.take 2 = ['/', '/'] ∧ p.take 3 ≠ ['/', '/', '/'] then 2 else 1)
      else 0
    let comps := splitAllCh '/' p
    let newComps := normpathComps initSl comps []
    let res := List.replicate initSl '/' ++ List.intercalate ['/'] newComps
    if res = [] then ['.'] else res

/-- The result components of `urllib.parse.urlparse` that the source reads
(`netloc`, `path`, `query`, `fragment`; `params` is split off and discarded). -/
structure UrlParts where
  netloc : Str
  path : Str
  query : Str
  fragment : Str
deriving DecidableEq

/-- The `params` split of `urlparse` (`_splitparams`): if the last path segment
contains a `;`, everything from the first `;` of that segment on is the
`params` field and is removed from `path`. Returns the `path` field only,
because the source never reads `params`. -/
def splitParams (p : Str) : Str :=
  if p.contains ';' then
    match
      (if p.contains '/' then
        (match lastIndexOf '/' p with
         | some j => findFrom ';' p j
         | none => indexOfCh ';' p)
      else indexOfCh ';' p) with
    | some i => p.take i
    | none => p
  else p

/-- `urllib.parse.urlparse`, for the URL shapes this repository feeds it:
`http://…`, `https://…`, or scheme-less strings (no other scheme appears).
Fragment is everything after the first `#`; the netloc (for `//`-rooted
hierarchical parts) stops at the first `/` or `?`; query is everything after
the first `?` of the rest; `params` is split off the path and dropped. -/
def pyUrlparse (url : Str) : UrlParts :=
  let fr := splitFirst '#' url
  let beforeFrag := fr.1
  let fragment := fr.2
  let afterScheme :=
    if (str "http://").isPrefixOf beforeFrag then beforeFrag.drop 5
    else if (str "https://").isPrefixOf beforeFrag then beforeFrag.drop 6
    else beforeFrag
  if afterScheme.take 2 = str "//" then
    let hostRest := afterScheme.drop 2
    let netloc := hostRest.takeWhile (fun c => ¬ (c = '/' ∨ c = '?'))
    let after := hostRest.dropWhile (fun c => ¬ (c = '/' ∨ c = '?'))
    let qr := splitFirst '?' after
    ⟨netloc, splitParams qr.1, qr.2, fragment⟩
  else
    let qr := splitFirst '?' afterScheme
    ⟨[], splitParams qr.1, qr.2, fragment⟩

/-- Python truthiness of an optional string (`None` and `""` are falsy). -/
def truthy : Option Str → Bool
  | none => false
  | some s => !s.isEmpty

/-- `Option.getD []`, the string a truthy optional holds. -/
def getS (o : Option Str) : Str := o.getD []

/-- `clean_path` from `src/mirror/transform_content.py` (lines 80–142),
the URL classifier and rewriter for a single reference. -/
def clean_path (path0 : Str) (fiddle_name current_domain accessed_dir : Option Str) : Str :=
  if path0.isEmpty then
    if truthy fiddle_name && truthy current_domain then
      '/' :: getS fiddle_name ++ '/' :: getS current_domain ++ ['/']
    else ['/']
  else if (str "data:").isPrefixOf path0 then path0
  else
    let path := stripChars isQuoteCh path0
    if truthy fiddle_name && ('/' :: getS fiddle_name ++ ['/']).isPrefixOf path then path
    else if (str "http://").isPrefixOf path || (str "https://").isPrefixOf path then
      let parsed := pyUrlparse path
      let path_with_query :=
        parsed.path ++ (if parsed.query.isEmpty then [] else '?' :: parsed.query)
          ++ (if parsed.fragment.isEmpty then [] else '#' :: parsed.fragment)
      if truthy fiddle_name then '/' :: getS fiddle_name ++ '/' :: parsed.netloc ++ path_with_query
      else path
    else if (str "//").isPrefixOf path then
      let afterSl := path.drop 2
      let domain := afterSl.takeWhile (· ≠ '/')
      let restSl := afterSl.dropWhile (· ≠ '/')
      let path_part := if restSl.isEmpty then ['/'] else restSl
      if truthy fiddle_name then '/' :: getS fiddle_name ++ '/' :: domain ++ path_part
      else path
    else if path.take 1 = ['/'] then
      if truthy fiddle_name && truthy current_domain then
        '/' :: getS fiddle_name ++ '/' :: getS current_domain ++ collapseSlashes path
      else path
    else if truthy accessed_dir then
      let full_path := normpath (pyJoin (getS accessed_dir) path)
      if truthy fiddle_name && truthy current_domain then
        '/' :: getS fiddle_name ++ '/' :: getS current_domain ++ '/' :: lstripSlash full_path
      else full_path
    else if truthy fiddle_name && truthy current_domain then
      '/' :: getS fiddle_name ++ '/' :: getS current_domain ++ '/' :: lstripSlash path
    else path

/-! ## The four `re.sub` passes of `transform_content`

`transform_content` (lines 204–241) applies four fixed substitution patterns
in order:

1. `href=(["']?)([^"'\s>]+)(["']?)`
2. `src=(["']?)([^"'\s>]+)(["']?)`
3. `(@import\s+["']?)([^"'\s;]+)(["']?)`
4. `url\((["']?)([^"'\)]+)(["']?)\)`

Each is a literal head, an optional quote, a greedy non-empty character-class
run (the URL reference, fed to `clean_path`), and an optional quote (plus a
closing `)` for pattern 4).  Since the quote characters are excluded from every
class, regex backtracking never produces an alternative match, so each pattern
has the deterministic first-match semantics implemented here.  `re.sub` scans
left to right and resumes after each replaced match, which is the scanner
`subGenF` below (with fuel, which the callers instantiate with the input
length — an upper bound on the number of scan steps, since every step consumes
at least one character). -/

/-- Character class `[^"'\s>]` of the `href=`/`src=` patterns. -/
def attrCls (c : Char) : Bool := !(isQuoteCh c || isPySpace c || c == '>')

/-- Character class `[^"'\s;]` of the `@import` pattern. -/
def importCls (c : Char) : Bool := !(isQuoteCh c || isPySpace c || c == ';')

/-- Character class `[^"'\)]` of the `url()` pattern. -/
def urlCls (c : Char) : Bool := !(isQuoteCh c || c == ')')

/-- One match of a substitution pattern: the matched text is
`pre ++ ref ++ post`, the scan resumes at `rest`, and the replacement text is
`pre ++ clean_path ref ++ post`. -/
structure UrlMatch where
  pre : Str
  ref : Str
  post : Str
  rest : Str
deriving DecidableEq

/-- Quote-free part of a match: a greedy non-empty class run followed by an
optional quote (`([^…]+)(["']?)` at the head of `l`). `q1` of the result is
always `[]` here; the optional opening quote is handled by `matchQRef`. -/
def matchCore (cls : Char → Bool) (l : Str) : Option UrlMatch :=
  match l with
  | [] => none
  | c :: cs =>
    if cls c then
      let run := (c :: cs).takeWhile cls
      let r2 := (c :: cs).dropWhile cls
      match r2 with
      | e :: es => if isQuoteCh e then some ⟨[], run, [e], es⟩ else some ⟨[], run, [], r2⟩
      | [] => some ⟨[], run, [], []⟩
    else none

/-- `(["']?)([^…]+)(["']?)` at the head of `l`: an optional opening quote,
then a non-empty class run, then an optional closing quote.  The opening
quote, when consumed, is recorded in `pre`. -/
def matchQRef (cls : Char → Bool) (l : Str) : Option UrlMatch :=
  match l with
  | [] => none
  | c :: cs =>
    if isQuoteCh c then
      (matchCore cls cs).map fun m => ⟨[c], m.ref, m.post, m.rest⟩
    else matchCore cls l

/-- A match of pattern 1 or 2 at the head of `l` (`lit` is `href=` or `src=`). -/
def stepAttr (lit : Str) (cls : Char → Bool) (l : Str) : Option UrlMatch :=
  if lit.isPrefixOf l then
    (matchQRef cls (l.drop lit.length)).map fun m => ⟨lit ++ m.pre, m.ref, m.post, m.rest⟩
  else none

/-- A match of the `@import` pattern at the head of `l`.  Group 1 of the
pattern is `@import`, the (non-empty) whitespace run and the optional quote,
all of which the replacement emits verbatim, so they all go into `pre`. -/
def stepImport (l : Str) : Option UrlMatch :=
  if (str "@import").isPrefixOf l then
    let after := l.drop 7
    let sps := after.takeWhile isPySpace
    if sps.isEmpty then none
    else
      (matchQRef importCls (after.dropWhile isPySpace)).map fun m =>
        ⟨str "@import" ++ sps ++ m.pre, m.ref, m.post, m.rest⟩
  else none

/-- The part of the `url()` pattern after the optional opening quote: a
non-empty class run, an optional quote, then the mandatory `)`.  The first
character after the run is not in the class, so it is `)` (closing the call,
empty quote group) or a quote, which must be followed by `)`; anything else
fails the whole match (no backtracking alternative exists because the class
excludes quotes and `)`). -/
def matchUrlCore (l : Str) : Option UrlMatch :=
  match l with
  | [] => none
  | c :: cs =>
    if urlCls c then
      let run := (c :: cs).takeWhile urlCls
      match (c :: cs).dropWhile urlCls with
      | [] => none
      | e :: es =>
        if e = ')' then some ⟨[], run, [')'], es⟩
        else
          match es with
          | [] => none
          | e2 :: es2 =>
            if isQuoteCh e ∧ e2 = ')' then some ⟨[], run, [e, ')'], es2⟩ else none
    else none

/-- A match of the `url()` pattern at the head of `l`.  The closing `)` is
carried in `post` (the replacement emits `url({q1}{cleaned}{q3})`). -/
def stepUrl (l : Str) : Option UrlMatch :=
  if (str "url(").isPrefixOf l then
    (match (l.drop 4) with
     | c :: cs =>
       if isQuoteCh c then
         (matchUrlCore cs).map fun m => ⟨str "url(" ++ [c], m.ref, m.post, m.rest⟩
       else (matchUrlCore (c :: cs)).map fun m => ⟨str "url(", m.ref, m.post, m.rest⟩
     | [] => none)
  else none

/-- `re.sub` with a single pattern `step` and a reference rewriter `f`: scan
left to right; at a match emit `pre ++ f ref ++ post` and resume at `rest`;
otherwise emit one character and move on.  `fuel` bounds the number of scan
steps; every caller passes the input length, which suffices because each step
consumes at least one input character. -/
def subGenF (step : Str → Option UrlMatch) (f : Str → Str) : Nat → Str → Str
  | 0, l => l
  | _ + 1, [] => []
  | fuel + 1, c :: cs =>
    match step (c :: cs) with
    | some m => m.pre ++ f m.ref ++ m.post ++ subGenF step f fuel m.rest
    | none => c :: subGenF step f fuel cs

/-- The references (pattern group 2) a scan of `subGenF` feeds to the rewriter. -/
def refsGenF (step : Str → Option UrlMatch) : Nat → Str → List Str
  | 0, _ => []
  | _ + 1, [] => []
  | fuel + 1, c :: cs =>
    match step (c :: cs) with
    | some m => m.ref :: refsGenF step fuel m.rest
    | none => refsGenF step fuel cs

/-- `transform_content` from `src/mirror/transform_content.py` (lines 204–241):
the four substitution passes in order, each rewriting references through
`clean_path`. -/
def transform_content (content : Str)
    (fiddle_name current_domain accessed_dir : Option Str) : Str :=
  if content.isEmpty then content
  else
    let f := fun r => clean_path r fiddle_name current_domain accessed_dir
    let c1 := subGenF (stepAttr (str "href=") attrCls) f content.length content
    let c2 := subGenF (stepAttr (str "src=") attrCls) f c1.length c1
    let c3 := subGenF stepImport f c2.length c2
    subGenF stepUrl f c3.length c3

/-- All references of the four passes, extracted from the same content (the
four scans see the same text whenever the passes leave it unchanged). -/
def transformRefs (content : Str) : List Str :=
  refsGenF (stepAttr (str "href=") attrCls) content.length content
    ++ refsGenF (stepAttr (str "src=") attrCls) content.length content
    ++ refsGenF stepImport content.length content
    ++ refsGenF stepUrl content.length content

/-- `TransformContent` from `src/mirror/transform_content.py` (lines 182–202):
derive the rewrite context (fiddle name, current domain, accessed directory)
from `base_url` and `accessed_url`, then run `transform_content`. -/
def TransformContent (base_url accessed_url content : Str) : Str :=
  let url_path := (pyUrlparse accessed_url).path
  let d0 := pyDirname url_path
  let d1 := if d0.getLast? = some '/' then d0 else d0 ++ ['/']
  let accessed_dir := if d1.take 1 = ['/'] then d1.drop 1 else d1
  if base_url.contains '/' then
    let fiddle_name := base_url.takeWhile (· ≠ '/')
    let rest := (base_url.dropWhile (· ≠ '/')).drop 1
    let current_domain := rest.takeWhile (· ≠ '/')
    transform_content content (some fiddle_name) (some current_domain) (some accessed_dir)
  else
    transform_content content none (some base_url) (some accessed_dir)

/-! ## The content cache (`src/mirror/mirror.py`, lines 27–119 and 169–180)

The sqlite table `mirrored_content` is modelled as a list of rows;
`INSERT OR REPLACE` deletes any row with the key and appends the new one,
and `SELECT … WHERE key_name = ?` is a first-match lookup. -/

/-- `EXPIRATION_DELTA_SECONDS = 3600 * 24 * 30` (30 days). -/
def EXPIRATION_DELTA_SECONDS : Nat := 3600 * 24 * 30

/-- `MAX_CONTENT_SIZE = 10 ** 64`. -/
def MAX_CONTENT_SIZE : Nat := 10 ^ 64

/-- A cached fetch result (class `MirroredContent`). -/
structure MirroredContent where
  original_address : Str
  translated_address : Str
  status : Nat
  headers : List (Str × Str)
  data : Str
  base_url : Str
deriving DecidableEq

/-- One row of the `mirrored_content` table. -/
structure CacheRow where
  key_name : Str
  content : MirroredContent
  expiry : Nat
deriving DecidableEq

/-- The `mirrored_content` table. -/
abbrev CacheDB := List CacheRow

/-- `SELECT * FROM mirrored_content WHERE key_name = ?` (first row). -/
def dbLookup (db : CacheDB) (k : Str) : Option CacheRow :=
  db.find? (fun r => r.key_name == k)

/-- `DELETE FROM mirrored_content WHERE key_name = ?`. -/
def dbDelete (db : CacheDB) (k : Str) : CacheDB :=
  db.filter (fun r => !(r.key_name == k))

/-- `INSERT OR REPLACE INTO mirrored_content …`. -/
def dbInsert (db : CacheDB) (k : Str) (c : MirroredContent) (expiry : Nat) : CacheDB :=
  dbDelete db k ++ [⟨k, c, expiry⟩]

/-- `get_url_key_name` prefixes a tag to a digest of the URL.  The sha256 hex
digest is modelled by the URL itself: the pipeline uses the key only as an
opaque cache key, so any injective function of the URL is an adequate model of
the (injective, for these purposes) hex digest. -/
def get_url_key_name (url : Str) : Str := str "hash_" ++ url

/-- `MirroredContent.get_by_key_name` (lines 94–119): `None` when no row
exists; when the row's expiry has passed the row is deleted and `None` is
returned; otherwise the stored content.  Returns the read result together
with the database state after the read. -/
def get_by_key_name (db : CacheDB) (k : Str) (now : Nat) :
    Option MirroredContent × CacheDB :=
  match dbLookup db k with
  | none => (none, db)
  | some row =>
    if row.expiry < now then (none, dbDelete db k)
    else (some row.content, db)

/-! ## The fetch-and-store path and the proxy pipeline -/

/-- `IGNORE_HEADERS` (lines 32–49). -/
def IGNORE_HEADERS : List Str :=
  [str "set-cookie", str "expires", str "cache-control",
   str "connection", str "keep-alive", str "proxy-authenticate",
   str "proxy-authorization", str "te", str "trailers",
   str "transfer-encoding", str "upgrade", str "x-frame-options",
   str "content-security-policy", str "x-xss-protection"]

/-- `BLACKLISTED_URLS` from `src/blacklist.py`. -/
def BLACKLISTED_URLS : List Str :=
  [str "www.ebay.com/myb/SavedSellers",
   str "signin.ebay.com/ws/eBayISAPI.dll/",
   str "cgi4.ebay.com/ws",
   str "my.ebay.com/ws",
   str "reg.ebay.com/reg/PartialReg",
   str "reg.ebay.com/reg/PartialReg?siteid=0&amp%3BUsingSSL=1&amp%3Bco_partnerId=2&amp%3Brv4=1",
   str "reg.ebay.com/reg/PartialReg?siteid=0&UsingSSL=1&co_partnerId=2&rv4=1",
   str "ocsnext.ebay.com/ocs/cuhome",
   str "pages.ebay.com/sitemap.html",
   str "cgi4.ebay.com/ws/eBayISAPI.dll?ChangeEmail",
   str "my.ebay.com/ws/eBayISAPI.dll?MyeBay",
   str "www.ebay.com/myb/Summary",
   str "www.facebook.com",
   str "www.facebook.com/login",
   str "www.linkedin.com/in",
   str "www.linkedin.com/in/cathy-foster-15108916",
   str "www.linkedin.com"]

/-- A Python dict update `d[k] = v` on an association list (replace in place,
else append). -/
def dictSet (d : List (Str × Str)) (k v : Str) : List (Str × Str) :=
  if d.any (fun p => p.1 == k) then d.map (fun p => if p.1 == k then (k, v) else p)
  else d ++ [(k, v)]

/-- Python `d.get(k)`. -/
def dictGet (d : List (Str × Str)) (k : Str) : Option Str :=
  (d.find? (fun p => p.1 == k)).map (·.2)

/-- Python `d.get(k, default)`. -/
def dictGetD (d : List (Str × Str)) (k dflt : Str) : Str := (dictGet d k).getD dflt

/-- Python `d.pop(k, None)` (the resulting dict). -/
def dictPop (d : List (Str × Str)) (k : Str) : List (Str × Str) :=
  d.filter (fun p => !(p.1 == k))

/-- What the outbound HTTP client returns for a request: the final URL after
redirect following (`response.url`), the status, the headers and the body.
`fetch_and_store` receives `none` when `httpx` raises a transport error. -/
structure OriginResponse where
  url : Str
  status : Nat
  headers : List (Str × Str)
  body : Str
deriving DecidableEq

/-- One iteration of the header-adjustment loop of `fetch_and_store`
(lines 138–146): a `location` value is rewritten onto the proxy namespace,
headers in `IGNORE_HEADERS` are dropped, any other header is kept under its
lowercased key. -/
def adjustHeaderStep (base_url : Str) (acc : List (Str × Str)) (kv : Str × Str) :
    List (Str × Str) :=
  if pyLower kv.1 = str "location" then
    let parsed := pyUrlparse kv.2
    let adjusted := '/' :: base_url ++ parsed.path
      ++ (if parsed.query.isEmpty then [] else '?' :: parsed.query)
    dictSet acc (str "location") adjusted
  else if IGNORE_HEADERS.contains (pyLower kv.1) then acc
  else dictSet acc (pyLower kv.1) kv.2

/-- The header-adjustment loop of `fetch_and_store` (lines 136–146). -/
def adjustHeaders (base_url : Str) (hs : List (Str × Str)) : List (Str × Str) :=
  hs.foldl (adjustHeaderStep base_url) []

/-- `MirroredContent.fetch_and_store` (lines 121–188): on a transport error
return `None`; otherwise guard against proxy-path duplication in the final
URL, adjust headers, transform HTML/CSS bodies through `TransformContent`,
truncate over-long content, store the row with a 30-day expiry and return it.
The sqlite insert's own failure path (which only logs) is not modelled: the
returned content is the same in both cases. -/
def fetch_and_store (db : CacheDB) (key_name base_url0 translated0 mirrored_url : Str)
    (origin : Option OriginResponse) (now : Nat) : Option MirroredContent × CacheDB :=
  match origin with
  | none => (none, db)
  | some resp =>
    let parsedF := pyUrlparse resp.url
    let dup := ('/' :: base_url0).isPrefixOf parsedF.path
    let translated_address := if dup then lstripSlash parsedF.path else translated0
    let base_url := if dup then base_url0.takeWhile (· ≠ '/') else base_url0
    let adjusted_headers := adjustHeaders base_url resp.headers
    let page_content_type := dictGetD adjusted_headers (str "content-type") []
    let content1 :=
      if (str "text/html").isPrefixOf page_content_type
          || (str "text/css").isPrefixOf page_content_type then
        TransformContent base_url mirrored_url resp.body
      else resp.body
    let content2 :=
      if content1.length > MAX_CONTENT_SIZE then content1.take MAX_CONTENT_SIZE else content1
    let new_content : MirroredContent :=
      ⟨mirrored_url, translated_address, resp.status, adjusted_headers, content2, base_url⟩
    (some new_content, dbInsert db key_name new_content (now + EXPIRATION_DELTA_SECONDS))

/-- The session overlay record the pipeline reads (`Fiddle.byUrlKey` is an
external collaborator; the route only reads `script` and `style`, which the
dataclass defaults to `""`, never `None`). -/
structure FiddleRec where
  script : Str
  style : Str
deriving DecidableEq

/-- A raised `fastapi.HTTPException`: status code and detail string. -/
structure HExc where
  status : Nat
  detail : Str
deriving DecidableEq

/-- `http.HTTPStatus(code).phrase` for the codes this pipeline raises. -/
def httpStatusPhrase (n : Nat) : Str :=
  if n = 400 then str "Bad Request"
  else if n = 403 then str "Forbidden"
  else if n = 404 then str "Not Found"
  else if n = 500 then str "Internal Server Error"
  else []

/-- `HTTPException(status_code=…, detail=…)`; an omitted detail defaults to
the status phrase. -/
def mkHTTPException (status : Nat) (detail : Option Str) : HExc :=
  ⟨status, detail.getD (httpStatusPhrase status)⟩

/-- `str(e)` of a starlette/fastapi `HTTPException`:
`f"{self.status_code}: {self.detail}"`. -/
def excStr (e : HExc) : Str := str (toString e.status) ++ str ": " ++ e.detail

/-- A response the route hands back to FastAPI. -/
inductive Resp where
  /-- An `HTTPException` propagated to the client (status and detail). -/
  | exc (status : Nat) (detail : Str) : Resp
  /-- A `RedirectResponse`. -/
  | redirect (location : Str) (status : Nat) : Resp
  /-- An `HTMLResponse` (body, status, headers). -/
  | html (body : Str) (status : Nat) (headers : List (Str × Str)) : Resp
deriving DecidableEq

/-- The HTTP status a `Resp` carries. -/
def Resp.statusOf : Resp → Nat
  | .exc s _ => s
  | .redirect _ s => s
  | .html _ s _ => s

/-- The `HTTPException` detail a `Resp` carries (`[]` for non-exceptions). -/
def Resp.detailOf : Resp → Str
  | .exc _ d => d
  | _ => []

/-- The body a `Resp` carries (`[]` for non-HTML responses). -/
def Resp.bodyOf : Resp → Str
  | .html b _ _ => b
  | _ => []

/-- The headers a `Resp` carries (`[]` for non-HTML responses). -/
def Resp.headersOf : Resp → List (Str × Str)
  | .html _ _ hs => hs
  | _ => []

/-- The serve-time `request_blocker` script of `proxy_route` (lines 388–495),
part before the first `%s` (which receives the fiddle name). -/
def rbPart0 : Str := str "\n<script>\n(function() \x7b\n    var proxyBase = '/"

/-- The serve-time `request_blocker` script, part between the two `%s`
placeholders (the second receives the domain). -/
def rbPart1 : Str := str "/';\n    var currentDomain = '"

/-- The serve-time `request_blocker` script, part after the second `%s`. -/
def rbPart2 : Str := str "';\n    \n    function rewriteUrl(url) \x7b\n        if (!url) return url;\n        if (url.startsWith('data:')) return url;\n        if (url.startsWith(proxyBase)) return url;\n        \n        try \x7b\n            var parser = document.createElement('a');\n            parser.href = url;\n            \n            if (url.startsWith('//')) \x7b\n                return proxyBase + url.substring(2);\n            \x7d\n            \n            if (url.startsWith('http://') || url.startsWith('https://')) \x7b\n                return proxyBase + parser.host + parser.pathname + (parser.search || '') + (parser.hash || '');\n            \x7d\n            \n            if (url.startsWith('/')) \x7b\n                return proxyBase + currentDomain + url;\n            \x7d\n            \n            return proxyBase + currentDomain + '/' + url;\n        \x7d catch (e) \x7b\n            console.error('Error rewriting URL:', e);\n            return url;\n        \x7d\n    \x7d\n    \n    // Intercept fetch/XHR requests\n    var originalFetch = window.fetch;\n    window.fetch = function(url, options) \x7b\n        return originalFetch(rewriteUrl(url), options);\n    \x7d;\n    \n    var originalXHROpen = XMLHttpRequest.prototype.open;\n    XMLHttpRequest.prototype.open = function(method, url, ...args) \x7b\n        return originalXHROpen.call(this, method, rewriteUrl(url), ...args);\n    \x7d;\n    \n    // Create MutationObserver to rewrite URLs in DOM mutations\n    var observer = new MutationObserver(function(mutations) \x7b\n        mutations.forEach(function(mutation) \x7b\n            mutation.addedNodes.forEach(function(node) \x7b\n                if (node.nodeType === 1) \x7b  // ELEMENT_NODE\n                    // Handle <a> tags\n                    if (node.tagName === 'A' && node.href) \x7b\n                        node.href = rewriteUrl(node.href);\n                    \x7d\n                    \n                    // Handle <img> tags\n                    if (node.tagName === 'IMG' && node.src) \x7b\n                        node.src = rewriteUrl(node.src);\n                    \x7d\n                    \n                    // Handle <iframe> tags\n                    if (node.tagName === 'IFRAME') \x7b\n                        if (node.src) \x7b\n                            node.src = rewriteUrl(node.src);\n                        \x7d\n                        node.setAttribute('sandbox', 'allow-scripts allow-same-origin allow-popups');\n                    \x7d\n                    \n                    // Handle <form> tags\n                    if (node.tagName === 'FORM' && node.action) \x7b\n                        node.action = rewriteUrl(node.action);\n                    \x7d\n                    \n                    // Handle <link> tags\n                    if (node.tagName === 'LINK' && node.href) \x7b\n                        node.href = rewriteUrl(node.href);\n                    \x7d\n                    \n                    // Handle <script> tags\n                    if (node.tagName === 'SCRIPT' && node.src) \x7b\n                        node.src = rewriteUrl(node.src);\n                    \x7d\n                    \n                    // Handle inline styles\n                    if (node.style && node.style.cssText) \x7b\n                        node.style.cssText = node.style.cssText.replace(\n                            /url\\(['\"]?([^'\")]+)['\"]?\\)/g,\n                            function(match, url) \x7b\n                                return 'url(' + rewriteUrl(url) + ')';\n                            \x7d\n                        );\n                    \x7d\n                \x7d\n            \x7d);\n        \x7d);\n    \x7d);\n    \n    observer.observe(document.documentElement, \x7b\n        childList: true,\n        subtree: true\n    \x7d);\n    \n    // Add iframe content\n    var iframeContent = '<div style=\"position:fixed;bottom:0;right:0;width:300px;height:250px;z-index:9999;\"><iframe src=\"//addictingwordgames.com\" width=\"300\" height=\"250\" frameborder=\"0\" scrolling=\"no\" sandbox=\"allow-scripts allow-same-origin allow-popups\"></iframe></div>';\n    document.body.insertAdjacentHTML('beforeend', iframeContent);\n\x7d)();\n</script>\n"

/-- The `request_blocker` string of `proxy_route` after `%`-formatting with
`(fiddle_name, domain)`. -/
def request_blocker (fiddle_name domain : Str) : Str :=
  rbPart0 ++ fiddle_name ++ rbPart1 ++ domain ++ rbPart2

/-- The response-assembly tail of `proxy_route` (lines 374–521), applied once
a `MirroredContent` is available (from the cache or freshly fetched): set
`cache-control` (DEBUG is `False`); for HTML, drop `content-length` and
`content-encoding`, run `transform_content` over the stored body a second
time, insert the `request_blocker` script before `</head>` (else before
`<body`, else at position 0), and append the session overlay script/style
blocks when the fiddle exists. -/
def serveContent (content : MirroredContent) (fiddle_name domain : Str)
    (fiddle : Option FiddleRec) : Resp :=
  let headers1 := dictSet content.headers (str "cache-control")
    (str ("max-age=" ++ toString EXPIRATION_DELTA_SECONDS))
  if (str "text/html").isPrefixOf (dictGetD content.headers (str "content-type") []) then
    let headers2 := dictPop (dictPop headers1 (str "content-length")) (str "content-encoding")
    let cws := transform_content content.data (some fiddle_name) (some domain) none
    let insert_pos :=
      match findSub (str "</head>") cws with
      | some i => i
      | none =>
        match findSub (str "<body") cws with
        | some i => i
        | none => 0
    let cws2 := cws.take insert_pos ++ request_blocker fiddle_name domain ++ cws.drop insert_pos
    let cws3 :=
      match fiddle with
      | some f =>
        cws2 ++ str "<script id=\"webfiddle-js\">" ++ f.script ++ str "</script>"
          ++ str "<style id=\"webfiddle-css\">" ++ f.style ++ str "</style>"
      | none => cws2
    .html cws3 content.status headers2
  else
    .html content.data content.status headers1

/-- The body of `proxy_route` (lines 340–521) inside its `try`: the checks
and early exits in source order, then cache lookup, fetch on miss, and the
serve tail.  The first component is the route's outcome (`Except.error` for a
raised `HTTPException`), the second records whether the fetcher was invoked,
the third is the cache state afterwards. -/
def proxy_route_core (user_agent fiddle_name path : Str) (db : CacheDB)
    (origin : Option OriginResponse) (fiddle : Option FiddleRec) (now : Nat) :
    Except HExc Resp × Bool × CacheDB :=
  if containsSub (str "AppEngine-Google") user_agent then
    (.error (mkHTTPException 404 none), false, db)
  else if !(fiddle_name.contains '-') then
    (.error (mkHTTPException 400 (some (str "Invalid fiddle name"))), false, db)
  else if (str "favicon.ico").isSuffixOf path then
    (.ok (.redirect (str "/static/favicon.ico") 302), false, db)
  else
    let domain := pyLower (path.takeWhile (· ≠ '/'))
    if BLACKLISTED_URLS.contains domain then
      (.error (mkHTTPException 403 (some (str "Access to this URL is not allowed"))), false, db)
    else
      let proxy_base := fiddle_name ++ '/' :: domain
      let mirrored_url := str "http://" ++ path
      let key_name := get_url_key_name mirrored_url
      let cached := get_by_key_name db key_name now
      match cached.1 with
      | some content => (.ok (serveContent content fiddle_name domain fiddle), false, cached.2)
      | none =>
        let fetched := fetch_and_store cached.2 key_name proxy_base path mirrored_url origin now
        match fetched.1 with
        | none => (.error (mkHTTPException 404 none), true, fetched.2)
        | some content => (.ok (serveContent content fiddle_name domain fiddle), true, fetched.2)

/-- The final outcome of `proxy_route`: the whole body runs inside
`try … except Exception as e: raise HTTPException(status_code=500, detail=str(e))`,
so every `HTTPException` raised inside the body — including the 400/403/404
exits — is caught and re-raised as a 500 whose detail is the string form of
the caught exception. -/
structure RouteResult where
  resp : Resp
  fetched : Bool
  db : CacheDB
deriving DecidableEq

/-- `proxy_route` from `src/mirror/mirror.py` (lines 340–525). -/
def proxy_route (user_agent fiddle_name path : Str) (db : CacheDB)
    (origin : Option OriginResponse) (fiddle : Option FiddleRec) (now : Nat) : RouteResult :=
  match proxy_route_core user_agent fiddle_name path db origin fiddle now with
  | (.ok r, f, db') => ⟨r, f, db'⟩
  | (.error e, f, db') => ⟨.exc 500 (excStr e), f, db'⟩

/-! ## Helper lemmas -/

theorem all_takeWhile' (p : Char → Bool) (l : Str) : (l.takeWhile p).all p = true := by
  induction l with
  | nil => rfl
  | cons a as ih =>
    simp only [List.takeWhile]
    split
    · simp [List.all_cons, *]
    · rfl

theorem dropWhile_of_all_not (p : Char → Bool) (l : Str)
    (h : l.all (fun c => !p c) = true) : l.dropWhile p = l := by
  cases l with
  | nil => rfl
  | cons a as =>
    simp only [List.all_cons, Bool.and_eq_true, Bool.not_eq_true'] at h
    simp [List.dropWhile, h.1]

theorem stripChars_of_all_not (p : Char → Bool) (l : Str)
    (h : l.all (fun c => !p c) = true) : stripChars p l = l := by
  unfold stripChars
  rw [dropWhile_of_all_not p l h, dropWhile_of_all_not p l.reverse (by simpa using h),
    List.reverse_reverse]

theorem all_mono {p q : Char → Bool} (h : ∀ c, p c = true → q c = true)
    (l : Str) (hl : l.all p = true) : l.all q = true := by
  simp only [List.all_eq_true] at hl ⊢
  exact fun c hc => h c (hl c hc)

theorem takeWhile_append_of_all {p : Char → Bool} {l : Str} (r : Str)
    (h : l.all p = true) : (l ++ r).takeWhile p = l ++ r.takeWhile p := by
  induction l with
  | nil => rfl
  | cons a as ih =>
    simp only [List.all_cons, Bool.and_eq_true] at h
    simp [List.takeWhile, h.1, ih h.2]

theorem dropWhile_append_of_all {p : Char → Bool} {l : Str} (r : Str)
    (h : l.all p = true) : (l ++ r).dropWhile p = r.dropWhile p := by
  induction l with
  | nil => rfl
  | cons a as ih =>
    simp only [List.all_cons, Bool.and_eq_true] at h
    simp [List.dropWhile, h.1, ih h.2]

theorem splitFirst_of_all_not (c : Char) (l : Str)
    (h : l.all (fun a => !(a == c)) = true) : splitFirst c l = (l, []) := by
  induction l with
  | nil => rfl
  | cons a as ih =>
    simp only [List.all_cons, Bool.and_eq_true, Bool.not_eq_true'] at h
    simp [splitFirst, h.1, ih h.2]

theorem splitFirst_append_cons (c : Char) (l r : Str)
    (h : l.all (fun a => !(a == c)) = true) : splitFirst c (l ++ c :: r) = (l, r) := by
  induction l with
  | nil => simp [splitFirst]
  | cons a as ih =>
    simp only [List.all_cons, Bool.and_eq_true, Bool.not_eq_true'] at h
    simp [splitFirst, h.1, ih h.2]

theorem not_contains_of_all (c : Char) (l : Str)
    (h : l.all (fun a => !(a == c)) = true) : l.contains c = false := by
  simp only [List.all_eq_true, Bool.not_eq_true', beq_eq_false_iff_ne] at h
  cases hcon : l.contains c with
  | false => rfl
  | true => exact absurd (List.mem_of_elem_eq_true hcon) (fun hc => (h c hc) rfl)

theorem isPrefixOf_append_self (l r : Str) : l.isPrefixOf (l ++ r) = true := by
  induction l with
  | nil => simp [List.isPrefixOf]
  | cons a as ih => simp [List.isPrefixOf, ih]

theorem dbLookup_dbInsert (db : CacheDB) (k : Str) (c : MirroredContent) (e : Nat) :
    dbLookup (dbInsert db k c e) k = some ⟨k, c, e⟩ := by
  unfold dbLookup dbInsert dbDelete
  induction db with
  | nil => simp [List.find?]
  | cons r rs ih =>
    by_cases hr : (r.key_name == k) = true
    · simp [List.filter, hr, ih]
    · have hr' : (r.key_name == k) = false := by simpa using hr
      simp [List.filter, hr', List.find?, ih]

/-! ### Scanner lemmas (for the idempotence claim) -/

theorem matchCore_cases {cls : Char → Bool} {l : Str} {m : UrlMatch}
    (h : matchCore cls l = some m) :
    m.pre = [] ∧ m.pre ++ m.ref ++ m.post ++ m.rest = l
      ∧ m.ref ≠ [] ∧ m.ref.all cls = true := by
  unfold matchCore at h
  cases l with
  | nil => exact absurd h (by simp)
  | cons c cs =>
    have hsplit := List.takeWhile_append_dropWhile (p := cls) (l := c :: cs)
    by_cases hc : cls c = true
    · simp only [hc, if_true] at h
      have hrun : (c :: cs).takeWhile cls = c :: cs.takeWhile cls := by
        simp [List.takeWhile, hc]
      rcases hr : (c :: cs).dropWhile cls with _ | ⟨e, es⟩ <;> rw [hr] at h hsplit
      · cases h
        exact ⟨rfl, by simpa using hsplit, by simp [hrun], all_takeWhile' cls (c :: cs)⟩
      · by_cases he : isQuoteCh e = true
        · simp only [he, if_true] at h
          cases h
          exact ⟨rfl, by simpa using hsplit, by simp [hrun], all_takeWhile' cls (c :: cs)⟩
        · simp only [he, if_false, Bool.false_eq_true] at h
          cases h
          exact ⟨rfl, by simpa using hsplit, by simp [hrun], all_takeWhile' cls (c :: cs)⟩
    · simp [hc] at h

theorem matchQRef_cases {cls : Char → Bool} {l : Str} {m : UrlMatch}
    (h : matchQRef cls l = some m) :
    m.pre ++ m.ref ++ m.post ++ m.rest = l ∧ m.ref ≠ [] ∧ m.ref.all cls = true := by
  unfold matchQRef at h
  cases l with
  | nil => exact absurd h (by simp)
  | cons c cs =>
    by_cases hq : isQuoteCh c = true
    · simp only [hq, if_true, Option.map_eq_some'] at h
      obtain ⟨m0, hm0, hm⟩ := h
      subst hm
      obtain ⟨hp, hrec, hne, hall⟩ := matchCore_cases hm0
      rw [hp, List.nil_append] at hrec
      refine ⟨?_, hne, hall⟩
      simpa using congrArg (c :: ·) hrec
    · simp only [hq, if_false, Bool.false_eq_true] at h
      obtain ⟨hp, hrec, hne, hall⟩ := matchCore_cases h
      exact ⟨hrec, hne, hall⟩

theorem matchUrlCore_cases {l : Str} {m : UrlMatch}
    (h : matchUrlCore l = some m) :
    m.pre = [] ∧ m.pre ++ m.ref ++ m.post ++ m.rest = l
      ∧ m.ref ≠ [] ∧ m.ref.all urlCls = true := by
  unfold matchUrlCore at h
  cases l with
  | nil => exact absurd h (by simp)
  | cons c cs =>
    have hsplit := List.takeWhile_append_dropWhile (p := urlCls) (l := c :: cs)
    by_cases hc : urlCls c = true
    · simp only [hc, if_true] at h
      have hrun : (c :: cs).takeWhile urlCls = c :: cs.takeWhile urlCls := by
        simp [List.takeWhile, hc]
      rcases hr : (c :: cs).dropWhile urlCls with _ | ⟨e, es⟩ <;> rw [hr] at h hsplit
      · exact absurd h (by simp)
      · by_cases he : e = ')'
        · subst he
          simp only [if_pos rfl] at h
          cases h
          exact ⟨rfl, by simpa using hsplit, by simp [hrun], all_takeWhile' urlCls (c :: cs)⟩
        · simp only [if_neg he] at h
          rcases es with _ | ⟨e2, es2⟩
          · exact absurd h (by simp)
          · by_cases hq : isQuoteCh e = true ∧ e2 = ')'
            · simp only [if_pos hq] at h
              cases h
              obtain ⟨hq1, hq2⟩ := hq
              subst hq2
              exact ⟨rfl, by simpa using hsplit, by simp [hrun],
                all_takeWhile' urlCls (c :: cs)⟩
            · simp only [if_neg hq] at h
              exact absurd h (by simp)
    · simp [hc] at h

theorem stepAttr_cases {lit : Str} {cls : Char → Bool} {l : Str} {m : UrlMatch}
    (h : stepAttr lit cls l = some m) :
    m.pre ++ m.ref ++ m.post ++ m.rest = l ∧ m.ref ≠ [] ∧ m.ref.all cls = true := by
  unfold stepAttr at h
  by_cases hp : lit.isPrefixOf l = true
  · simp only [hp, if_true, Option.map_eq_some'] at h
    obtain ⟨m0, hm0, hm⟩ := h
    subst hm
    obtain ⟨t, ht⟩ := List.isPrefixOf_iff_prefix.mp hp
    subst ht
    rw [List.drop_left] at hm0
    obtain ⟨hrec, hne, hall⟩ := matchQRef_cases hm0
    refine ⟨?_, hne, hall⟩
    simp only [List.append_assoc] at hrec ⊢
    rw [hrec]
  · simp [hp] at h

theorem stepImport_cases {l : Str} {m : UrlMatch}
    (h : stepImport l = some m) :
    m.pre ++ m.ref ++ m.post ++ m.rest = l ∧ m.ref ≠ [] ∧ m.ref.all importCls = true := by
  unfold stepImport at h
  by_cases hp : (str "@import").isPrefixOf l = true
  · simp only [hp, if_true] at h
    obtain ⟨t, ht⟩ := List.isPrefixOf_iff_prefix.mp hp
    subst ht
    rw [show List.drop 7 (str "@import" ++ t) = t from List.drop_left' (by decide)] at h
    by_cases hsps : (t.takeWhile isPySpace).isEmpty = true
    · simp [hsps] at h
    · simp only [hsps, if_false, Bool.false_eq_true, Option.map_eq_some'] at h
      obtain ⟨m0, hm0, hm⟩ := h
      subst hm
      obtain ⟨hrec, hne, hall⟩ := matchQRef_cases hm0
      refine ⟨?_, hne, hall⟩
      have hsp := List.takeWhile_append_dropWhile (p := isPySpace) (l := t)
      simp only [List.append_assoc] at hrec ⊢
      rw [hrec, hsp]
  · simp [hp] at h

theorem stepUrl_cases {l : Str} {m : UrlMatch}
    (h : stepUrl l = some m) :
    m.pre ++ m.ref ++ m.post ++ m.rest = l ∧ m.ref ≠ [] ∧ m.ref.all urlCls = true := by
  unfold stepUrl at h
  by_cases hp : (str "url(").isPrefixOf l = true
  · simp only [hp, if_true] at h
    obtain ⟨t, ht⟩ := List.isPrefixOf_iff_prefix.mp hp
    subst ht
    rw [show List.drop 4 (str "url(" ++ t) = t from List.drop_left' (by decide)] at h
    cases t with
    | nil => exact absurd h (by simp)
    | cons c cs =>
      by_cases hq : isQuoteCh c = true
      · simp only [hq, if_true, Option.map_eq_some'] at h
        obtain ⟨m0, hm0, hm⟩ := h
        subst hm
        obtain ⟨hpre, hrec, hne, hall⟩ := matchUrlCore_cases hm0
        rw [hpre, List.nil_append] at hrec
        refine ⟨?_, hne, hall⟩
        simp only [List.append_assoc] at hrec ⊢
        simp [hrec]
      · simp only [hq, if_false, Bool.false_eq_true, Option.map_eq_some'] at h
        obtain ⟨m0, hm0, hm⟩ := h
        subst hm
        obtain ⟨hpre, hrec, hne, hall⟩ := matchUrlCore_cases hm0
        rw [hpre, List.nil_append] at hrec
        refine ⟨?_, hne, hall⟩
        simp only [List.append_assoc] at hrec ⊢
        simp [hrec]
  · simp [hp] at h

/-- When the rewriter fixes every reference a scan extracts, the scan
reproduces its input: each replaced match re-emits exactly the matched text. -/
theorem subGenF_eq_self (step : Str → Option UrlMatch) (f : Str → Str)
    (hrecon : ∀ {l m}, step l = some m → m.pre ++ m.ref ++ m.post ++ m.rest = l) :
    ∀ fuel l, (∀ r ∈ refsGenF step fuel l, f r = r) → subGenF step f fuel l = l := by
  intro fuel
  induction fuel with
  | zero => intro l _; rfl
  | succ n ih =>
    intro l h
    cases l with
    | nil => rfl
    | cons c cs =>
      cases hstep : step (c :: cs) with
      | none =>
        have h' : ∀ r ∈ refsGenF step n cs, f r = r := by
          intro r hr
          exact h r (by simp [refsGenF, hstep, hr])
        simp [subGenF, hstep, ih cs h']
      | some m =>
        have hf : f m.ref = m.ref := h m.ref (by simp [refsGenF, hstep])
        have h' : ∀ r ∈ refsGenF step n m.rest, f r = r := by
          intro r hr
          exact h r (by simp [refsGenF, hstep, hr])
        have hr := hrecon hstep
        simp only [subGenF, hstep]
        rw [hf, ih m.rest h']
        simpa using hr

/-- `clean_path` fixes every non-empty quote-free path that already starts
with the proxy prefix `/{fiddle_name}/`: the "prevent double proxying" guard
returns it unchanged. -/
theorem clean_path_of_prefixed (sid : Str) (dom dir : Option Str) (r : Str)
    (hsid : sid ≠ [])
    (hq : r.all (fun c => !isQuoteCh c) = true)
    (hpre : ('/' :: sid ++ ['/']).isPrefixOf r = true) :
    clean_path r (some sid) dom dir = r := by
  obtain ⟨t, ht⟩ := List.isPrefixOf_iff_prefix.mp hpre
  have hr : r = '/' :: (sid ++ '/' :: t) := by
    rw [← ht]; simp
  have hdata : (str "data:").isPrefixOf r = false := by
    rw [hr]; rfl
  have hstrip : stripChars isQuoteCh r = r := stripChars_of_all_not _ _ hq
  have hemp : r.isEmpty = false := by
    rw [hr]; rfl
  unfold clean_path
  rw [hemp, if_neg (by simp), hdata, if_neg (by simp), hstrip]
  have htr : truthy (some sid) = true := by
    cases sid with
    | nil => exact absurd rfl hsid
    | cons a as => rfl
  have hguard : (truthy (some sid) && ('/' :: getS (some sid) ++ ['/']).isPrefixOf r) = true := by
    simp only [getS, Option.getD_some, htr, Bool.true_and]
    exact hpre
  rw [if_pos hguard]

/-- The references a scan extracts are non-empty runs of the pattern's
character class. -/
theorem refsGenF_props {cls : Char → Bool} (step : Str → Option UrlMatch)
    (hstep : ∀ {l m}, step l = some m → m.ref ≠ [] ∧ m.ref.all cls = true) :
    ∀ fuel l r, r ∈ refsGenF step fuel l → r ≠ [] ∧ r.all cls = true := by
  intro fuel
  induction fuel with
  | zero => intro l r hr; simp [refsGenF] at hr
  | succ n ih =>
    intro l r hr
    cases l with
    | nil => simp [refsGenF] at hr
    | cons c cs =>
      simp only [refsGenF] at hr
      cases hstep' : step (c :: cs) with
      | none =>
        rw [hstep'] at hr
        exact ih cs r hr
      | some m =>
        rw [hstep'] at hr
        rcases List.mem_cons.mp hr with hone | htail
        · subst hone
          exact hstep hstep'
        · exact ih m.rest r htail

/-! ### Claim C1 -/

/-- C1: `transform_content` is the identity on any content all of whose URL
references (the strings the four substitution patterns submit to the
rewriter) already start with the proxy prefix `/{sessionId}/`: the
"starts with `/{sessionId}/`" guard of `clean_path` fires before any
rewriting, every replacement re-emits the matched text, and the content is
returned unchanged — so a second rewrite of already-rewritten content is a
no-op. -/
theorem C1_rewrite_fixes_prefixed_content (sid : Str) (dom dir : Option Str)
    (content : Str) (hsid : sid ≠ [])
    (h : ∀ r ∈ transformRefs content, ('/' :: sid ++ ['/']).isPrefixOf r = true) :
    transform_content content (some sid) dom dir = content := by
  by_cases hemp : content.isEmpty = true
  · unfold transform_content
    rw [if_pos hemp]
  · have hclean : ∀ (cls : Char → Bool), (∀ c, cls c = true → (!isQuoteCh c) = true) →
        ∀ r, r.all cls = true →
        ('/' :: sid ++ ['/']).isPrefixOf r = true →
        clean_path r (some sid) dom dir = r := by
      intro cls hcls r hall hpre
      exact clean_path_of_prefixed sid dom dir r hsid (all_mono hcls r hall) hpre
    have hattr : ∀ c, attrCls c = true → (!isQuoteCh c) = true := by
      intro c hc
      unfold attrCls at hc
      simp only [Bool.not_eq_true', Bool.or_eq_false_iff] at hc ⊢
      exact hc.1.1
    have himp : ∀ c, importCls c = true → (!isQuoteCh c) = true := by
      intro c hc
      unfold importCls at hc
      simp only [Bool.not_eq_true', Bool.or_eq_false_iff] at hc ⊢
      exact hc.1.1
    have hurl : ∀ c, urlCls c = true → (!isQuoteCh c) = true := by
      intro c hc
      unfold urlCls at hc
      simp only [Bool.not_eq_true', Bool.or_eq_false_iff] at hc ⊢
      exact hc.1
    have hsplit1 : ∀ r ∈ refsGenF (stepAttr (str "href=") attrCls) content.length content,
        ('/' :: sid ++ ['/']).isPrefixOf r = true := by
      intro r hr
      exact h r (by unfold transformRefs; simp [hr])
    have hsplit2 : ∀ r ∈ refsGenF (stepAttr (str "src=") attrCls) content.length content,
        ('/' :: sid ++ ['/']).isPrefixOf r = true := by
      intro r hr
      exact h r (by unfold transformRefs; simp [hr])
    have hsplit3 : ∀ r ∈ refsGenF stepImport content.length content,
        ('/' :: sid ++ ['/']).isPrefixOf r = true := by
      intro r hr
      exact h r (by unfold transformRefs; simp [hr])
    have hsplit4 : ∀ r ∈ refsGenF stepUrl content.length content,
        ('/' :: sid ++ ['/']).isPrefixOf r = true := by
      intro r hr
      exact h r (by unfold transformRefs; simp [hr])
    have fix1 : ∀ (lit : Str),
        (∀ r ∈ refsGenF (stepAttr lit attrCls) content.length content,
          ('/' :: sid ++ ['/']).isPrefixOf r = true) →
        subGenF (stepAttr lit attrCls)
          (fun r => clean_path r (some sid) dom dir) content.length content = content := by
      intro lit hs
      refine subGenF_eq_self _ _ (fun hm => (stepAttr_cases hm).1) content.length content ?_
      intro r hr
      obtain ⟨-, hall⟩ :=
        refsGenF_props (stepAttr lit attrCls) (fun hm => (stepAttr_cases hm).2)
          content.length content r hr
      exact hclean attrCls hattr r hall (hs r hr)
    have fix3 : subGenF stepImport
        (fun r => clean_path r (some sid) dom dir) content.length content = content := by
      refine subGenF_eq_self _ _ (fun hm => (stepImport_cases hm).1) content.length content ?_
      intro r hr
      obtain ⟨-, hall⟩ :=
        refsGenF_props stepImport (fun hm => (stepImport_cases hm).2)
          content.length content r hr
      exact hclean importCls himp r hall (hsplit3 r hr)
    have fix4 : subGenF stepUrl
        (fun r => clean_path r (some sid) dom dir) content.length content = content := by
      refine subGenF_eq_self _ _ (fun hm => (stepUrl_cases hm).1) content.length content ?_
      intro r hr
      obtain ⟨-, hall⟩ :=
        refsGenF_props stepUrl (fun hm => (stepUrl_cases hm).2)
          content.length content r hr
      exact hclean urlCls hurl r hall (hsplit4 r hr)
    unfold transform_content
    rw [if_neg (by simp [hemp])]
    simp only
    rw [fix1 (str "href=") hsplit1, fix1 (str "src=") hsplit2, fix3, fix4]

/-! ### Claim C4 -/

/-- C4 (code bug): the repository's own test `testMultipleSlashes` expects
`//path//to//resource` (accessed from `http://example.com`, session
`cats-bdml3m`) to rewrite to `/cats-bdml3m/example.com/path/to/resource`, but
the code classifies the reference as protocol-relative (`//` prefix), takes
`path` as the host, and never collapses the remaining double slashes: the
output is `/cats-bdml3m/path//to//resource`.  Only the root-relative branch
(`/x//y`) collapses slash runs. -/
theorem C4_multiple_slashes_code_bug :
    TransformContent (str "cats-bdml3m/example.com") (str "http://example.com")
      (str "<img src=\"//path//to//resource\"/>")
      = str "<img src=\"/cats-bdml3m/path//to//resource\"/>"
    ∧ str "<img src=\"/cats-bdml3m/path//to//resource\"/>"
      ≠ str "<img src=\"/cats-bdml3m/example.com/path/to/resource\"/>" := by
  constructor
  · decide
  · decide

/-! ### Claim C5 -/

/-- C5: cache reads.  A `get` for an absent key returns `None` and leaves the
store unchanged; an entry written at time `t` carries expiry
`t + EXPIRATION_DELTA_SECONDS` (30 days) and is returned as long as the
expiry has not passed; once it has, the read returns `None` and deletes the
stale row as a side effect (lazy eviction). -/
theorem C5_cache_get_semantics (db : CacheDB) (k : Str) (c : MirroredContent)
    (t now : Nat) :
    EXPIRATION_DELTA_SECONDS = 30 * 24 * 3600
    ∧ (dbLookup db k = none → get_by_key_name db k now = (none, db))
    ∧ (now < t + EXPIRATION_DELTA_SECONDS →
        (get_by_key_name (dbInsert db k c (t + EXPIRATION_DELTA_SECONDS)) k now).1 = some c)
    ∧ (t + EXPIRATION_DELTA_SECONDS < now →
        get_by_key_name (dbInsert db k c (t + EXPIRATION_DELTA_SECONDS)) k now
          = (none, dbDelete (dbInsert db k c (t + EXPIRATION_DELTA_SECONDS)) k)
        ∧ dbLookup (dbDelete (dbInsert db k c (t + EXPIRATION_DELTA_SECONDS)) k) k = none) := by
  have hlk : ∀ e : Nat, dbLookup (dbInsert db k c e) k = some ⟨k, c, e⟩ :=
    fun e => dbLookup_dbInsert db k c e
  have hdel : dbLookup (dbDelete (dbInsert db k c (t + EXPIRATION_DELTA_SECONDS)) k) k = none := by
    unfold dbLookup dbDelete
    rw [List.find?_eq_none]
    intro r hr
    have := (List.mem_filter.mp hr).2
    simpa using this
  refine ⟨by decide, ?_, ?_, ?_⟩
  · intro hnone
    unfold get_by_key_name
    rw [hnone]
  · intro hlt
    unfold get_by_key_name
    rw [hlk]
    have hno : ¬ (t + EXPIRATION_DELTA_SECONDS < now) := by omega
    simp only [hno, if_false]
  · intro hgt
    unfold get_by_key_name
    rw [hlk]
    simp only [hgt, if_true]
    exact ⟨trivial, hdel⟩

/-- C5 witness: a concrete entry written at time 0 is retrievable at time 5,
and at time `EXPIRATION_DELTA_SECONDS + 1` the read returns `None` and the
row is gone; a read of an absent key returns `None`. -/
theorem C5_cache_get_semantics_witness :
    (get_by_key_name
        (dbInsert [] (str "hash_http://ex.com")
          ⟨str "http://ex.com", str "ex.com", 200, [], str "<p>hi</p>", str "cats-x/ex.com"⟩
          (0 + EXPIRATION_DELTA_SECONDS))
        (str "hash_http://ex.com") 5).1
      = some ⟨str "http://ex.com", str "ex.com", 200, [], str "<p>hi</p>", str "cats-x/ex.com"⟩
    ∧ get_by_key_name
        (dbInsert [] (str "hash_http://ex.com")
          ⟨str "http://ex.com", str "ex.com", 200, [], str "<p>hi</p>", str "cats-x/ex.com"⟩
          (0 + EXPIRATION_DELTA_SECONDS))
        (str "hash_http://ex.com") (EXPIRATION_DELTA_SECONDS + 1)
        = (none, dbDelete
            (dbInsert [] (str "hash_http://ex.com")
              ⟨str "http://ex.com", str "ex.com", 200, [], str "<p>hi</p>", str "cats-x/ex.com"⟩
              (0 + EXPIRATION_DELTA_SECONDS))
            (str "hash_http://ex.com"))
    ∧ get_by_key_name [] (str "hash_http://other.com") 7 = (none, []) := by
  refine ⟨?_, ?_, ?_⟩
  · exact (C5_cache_get_semantics [] (str "hash_http://ex.com") _ 0 5).2.2.1 (by decide)
  · exact ((C5_cache_get_semantics [] (str "hash_http://ex.com") _ 0
      (EXPIRATION_DELTA_SECONDS + 1)).2.2.2 (by decide)).1
  · exact (C5_cache_get_semantics [] (str "hash_http://other.com")
      ⟨[], [], 0, [], [], []⟩ 0 7).2.1 rfl

/-! ### Claim C6 -/

/-- C6 (amended): a request whose domain portion (first path segment,
lowercased) is in the static denylist never invokes the fetcher; when it
passes the user-agent, session-name and favicon checks, the pipeline raises
the 403 internally, but the outermost `except Exception` handler of
`proxy_route` re-raises it as a 500 whose detail embeds the 403 message, so
the client sees that 500 — not a 403. -/
theorem C6_blacklist_never_fetches (ua fid path : Str) (db : CacheDB)
    (origin : Option OriginResponse) (fr : Option FiddleRec) (now : Nat)
    (hbl : pyLower (path.takeWhile (· ≠ '/')) ∈ BLACKLISTED_URLS) :
    (proxy_route ua fid path db origin fr now).fetched = false
    ∧ (containsSub (str "AppEngine-Google") ua = false →
       '-' ∈ fid →
       ¬ (str "favicon.ico") <:+ path →
       (proxy_route ua fid path db origin fr now).resp
         = Resp.exc 500 (str "403: Access to this URL is not allowed")) := by
  have hx : excStr (mkHTTPException 403 (some (str "Access to this URL is not allowed")))
      = str "403: Access to this URL is not allowed" := by decide
  simp only [ne_eq, decide_not] at hbl
  unfold proxy_route proxy_route_core
  by_cases hua : containsSub (str "AppEngine-Google") ua = true
  · simp [hua]
  · by_cases hfid : '-' ∈ fid
    · by_cases hfav : (str "favicon.ico") <:+ path
      · simp [hua, hfid, hfav]
      · simp [hua, hfid, hfav, hbl, hx]
    · simp [hua, hfid]

/-- C6 witness: a concrete blacklisted request (domain `www.linkedin.com`)
never fetches and yields the wrapped 500 carrying the 403 message. -/
theorem C6_blacklist_never_fetches_witness :
    (proxy_route (str "") (str "cats-w") (str "www.linkedin.com") [] none none 0).fetched = false
    ∧ (proxy_route (str "") (str "cats-w") (str "www.linkedin.com") [] none none 0).resp
      = Resp.exc 500 (str "403: Access to this URL is not allowed") := by
  have h := C6_blacklist_never_fetches (str "") (str "cats-w") (str "www.linkedin.com")
    [] none none 0 (by decide)
  exact ⟨h.1, h.2 (by decide) (by decide) (by decide)⟩

/-- C6 counterexample: the claim promises a terminal **403**, but the
outermost handler converts the internal 403 into a 500 (and a blacklisted
domain whose path ends in `favicon.ico` short-circuits into a 302 before the
blacklist check): for the blacklisted domain `www.facebook.com` the status is
500, not 403 (the fetcher is still never invoked). -/
theorem C6_blacklisted_request_counterexample :
    BLACKLISTED_URLS.contains (pyLower (str "www.facebook.com")) = true
    ∧ (proxy_route (str "") (str "cats-x") (str "www.facebook.com") [] none none 0).resp.statusOf
      = 500
    ∧ (proxy_route (str "") (str "cats-x") (str "www.facebook.com") [] none none 0).resp.statusOf
      ≠ 403
    ∧ (proxy_route (str "") (str "cats-x") (str "www.facebook.com/favicon.ico")
        [] none none 0).resp
      = Resp.redirect (str "/static/favicon.ico") 302
    ∧ (proxy_route (str "") (str "cats-x") (str "www.facebook.com") [] none none 0).fetched
      = false := by
  refine ⟨by decide, by decide, by decide, by decide, by decide⟩

/-! ### Claim C7 -/

/-- C7 (amended): a session id without the `-` separator never triggers a
fetch, but the client does not see a 4xx: the internal
`HTTPException(400, "Invalid fiddle name")` is caught by the route's
outermost `except Exception` and re-raised as a 500 whose detail embeds the
400 message (the repository's own test asserts this 500). -/
theorem C7_invalid_session_id (ua fid path : Str) (db : CacheDB)
    (origin : Option OriginResponse) (fr : Option FiddleRec) (now : Nat)
    (hua : containsSub (str "AppEngine-Google") ua = false)
    (hfid : '-' ∉ fid) :
    proxy_route ua fid path db origin fr now
      = ⟨Resp.exc 500 (str "400: Invalid fiddle name"), false, db⟩ := by
  have hx : excStr (mkHTTPException 400 (some (str "Invalid fiddle name")))
      = str "400: Invalid fiddle name" := by decide
  unfold proxy_route proxy_route_core
  simp [hua, hfid, hx]

/-- C7 witness: the concrete request `/invalidfiddle/example.com`. -/
theorem C7_invalid_session_id_witness :
    proxy_route (str "") (str "invalidfiddle") (str "example.com") [] none none 0
      = ⟨Resp.exc 500 (str "400: Invalid fiddle name"), false, []⟩ :=
  C7_invalid_session_id (str "") (str "invalidfiddle") (str "example.com") [] none none 0
    (by decide) (by decide)

/-- C7 counterexample: the claim promises a 4xx for `/invalidfiddle/example.com`;
the code responds 500 (no fetch is attempted). -/
theorem C7_invalid_session_id_counterexample :
    (proxy_route (str "") (str "nodash") (str "example.com") [] none none 0).resp.statusOf = 500
    ∧ ¬ (400 ≤ (proxy_route (str "") (str "nodash") (str "example.com")
          [] none none 0).resp.statusOf
        ∧ (proxy_route (str "") (str "nodash") (str "example.com")
          [] none none 0).resp.statusOf < 500)
    ∧ (proxy_route (str "") (str "nodash") (str "example.com") [] none none 0).fetched
      = false := by
  refine ⟨by decide, by decide, by decide⟩

/-! ### Claim C9 -/

theorem isPrefixOf_refl' (l : Str) : l.isPrefixOf l = true := by
  induction l with
  | nil => simp [List.isPrefixOf]
  | cons a as ih => simp [List.isPrefixOf, ih]

theorem containsSub_append_right (pre sub : Str) : containsSub sub (pre ++ sub) = true := by
  induction pre with
  | nil =>
    cases sub with
    | nil => rfl
    | cons c cs => simp [containsSub, isPrefixOf_refl']
  | cons a pre' ih => simp [containsSub, ih]

/-- C9 (amended): every failure inside the pipeline body — every internal
`HTTPException`, validation errors included — is caught by the outermost
`except Exception` handler and re-raised as a 500 whose detail is
`str(e) = f"{status}: {detail}"` of the caught exception; the internal
exception's text is therefore reflected verbatim inside the client-visible
detail (no stack trace is included, but the message is not generic). -/
theorem C9_exception_detail_reflected (ua fid path : Str) (db : CacheDB)
    (origin : Option OriginResponse) (fr : Option FiddleRec) (now : Nat) (e : HExc)
    (he : (proxy_route_core ua fid path db origin fr now).1 = Except.error e) :
    (proxy_route ua fid path db origin fr now).resp = Resp.exc 500 (excStr e)
    ∧ containsSub e.detail
        ((proxy_route ua fid path db origin fr now).resp.detailOf) = true := by
  have hmain : (proxy_route ua fid path db origin fr now).resp = Resp.exc 500 (excStr e) := by
    unfold proxy_route
    rcases hc : proxy_route_core ua fid path db origin fr now with ⟨res, fb, db2⟩
    rw [hc] at he
    simp only at he
    subst he
    rfl
  refine ⟨hmain, ?_⟩
  rw [hmain]
  show containsSub e.detail (excStr e) = true
  unfold excStr
  exact containsSub_append_right (str (toString e.status) ++ str ": ") e.detail

/-- C9 witness: for a blacklisted request the inner exception is
`HTTPException(403, "Access to this URL is not allowed")` and the outer 500's
detail embeds exactly that text. -/
theorem C9_exception_detail_reflected_witness :
    (proxy_route (str "") (str "cats-y") (str "www.linkedin.com/in") [] none none 0).resp
      = Resp.exc 500 (excStr ⟨403, str "Access to this URL is not allowed"⟩)
    ∧ containsSub (str "Access to this URL is not allowed")
        ((proxy_route (str "") (str "cats-y") (str "www.linkedin.com/in")
          [] none none 0).resp.detailOf) = true := by
  have h := C9_exception_detail_reflected (str "") (str "cats-y") (str "www.linkedin.com/in")
    [] none none 0 ⟨403, str "Access to this URL is not allowed"⟩ (by rfl)
  exact h

/-- C9 counterexample: a failing request whose client-visible detail is the
string form of the internal exception — it contains the internal message
"Access to this URL is not allowed", so the detail is not a generic message. -/
theorem C9_error_detail_leak_counterexample :
    (proxy_route (str "") (str "cats-z") (str "www.facebook.com/phish")
        [] none none 0).resp.statusOf = 500
    ∧ (proxy_route (str "") (str "cats-z") (str "www.facebook.com/phish")
        [] none none 0).resp.detailOf = str "403: Access to this URL is not allowed"
    ∧ containsSub (str "Access to this URL is not allowed")
        ((proxy_route (str "") (str "cats-z") (str "www.facebook.com/phish")
          [] none none 0).resp.detailOf) = true := by
  refine ⟨by decide, by decide, by decide⟩

/-! ### Claim C8 -/

theorem mem_dictSet {d : List (Str × Str)} {k v : Str} {p : Str × Str}
    (hp : p ∈ dictSet d k v) : p.1 = k ∨ p ∈ d := by
  unfold dictSet at hp
  split at hp
  · obtain ⟨q, hq, hpq⟩ := List.mem_map.mp hp
    by_cases hqk : (q.1 == k) = true
    · rw [if_pos hqk] at hpq
      left
      rw [← hpq]
    · rw [if_neg (by simpa using hqk)] at hpq
      right
      rw [← hpq]
      exact hq
  · rcases List.mem_append.mp hp with h | h
    · right; exact h
    · left
      have : p = (k, v) := by simpa using h
      rw [this]

theorem mem_dictPop {d : List (Str × Str)} {k : Str} {p : Str × Str}
    (hp : p ∈ dictPop d k) : p ∈ d :=
  (List.mem_filter.mp hp).1

theorem dictGet_eq_none_of_all {d : List (Str × Str)} {k : Str}
    (h : ∀ p ∈ d, (p.1 == k) = false) : dictGet d k = none := by
  unfold dictGet
  rw [List.find?_eq_none.mpr (fun p hp => by simp [h p hp])]
  rfl

theorem adjustHeaderStep_csp_free (b : Str) (acc : List (Str × Str)) (kv : Str × Str)
    (hacc : ∀ p ∈ acc, (p.1 == str "content-security-policy") = false) :
    ∀ p ∈ adjustHeaderStep b acc kv, (p.1 == str "content-security-policy") = false := by
  intro p hp
  unfold adjustHeaderStep at hp
  split at hp
  · rcases mem_dictSet hp with h | h
    · rw [h]; decide
    · exact hacc p h
  · split at hp
    · exact hacc p hp
    · rcases mem_dictSet hp with h | h
      · rename_i hig
        rw [h]
        by_cases heq : pyLower kv.1 = str "content-security-policy"
        · exfalso
          apply hig
          rw [heq]
          decide
        · simpa using heq
      · exact hacc p h

theorem adjustHeaders_csp_free (b : Str) (hs : List (Str × Str)) :
    ∀ p ∈ adjustHeaders b hs, (p.1 == str "content-security-policy") = false := by
  unfold adjustHeaders
  suffices hgen : ∀ (hs acc : List (Str × Str)),
      (∀ p ∈ acc, (p.1 == str "content-security-policy") = false) →
      ∀ p ∈ hs.foldl (adjustHeaderStep b) acc,
        (p.1 == str "content-security-policy") = false by
    exact hgen hs [] (by simp)
  intro hs
  induction hs with
  | nil => intro acc hacc; simpa using hacc
  | cons kv hs' ih =>
    intro acc hacc
    exact ih (adjustHeaderStep b acc kv) (adjustHeaderStep_csp_free b acc kv hacc)

theorem serveContent_csp_free (c : MirroredContent) (fid dom : Str)
    (fr : Option FiddleRec)
    (hc : ∀ p ∈ c.headers, (p.1 == str "content-security-policy") = false) :
    dictGet ((serveContent c fid dom fr).headersOf) (str "content-security-policy")
      = none := by
  have h1 : ∀ p ∈ dictSet c.headers (str "cache-control")
      (str ("max-age=" ++ toString EXPIRATION_DELTA_SECONDS)),
      (p.1 == str "content-security-policy") = false := by
    intro p hp
    rcases mem_dictSet hp with h | h
    · rw [h]; decide
    · exact hc p h
  unfold serveContent
  split
  · apply dictGet_eq_none_of_all
    intro p hp
    exact h1 p (mem_dictPop (mem_dictPop hp))
  · apply dictGet_eq_none_of_all
    intro p hp
    exact h1 p hp

theorem fetch_and_store_csp_free {db : CacheDB} {k b t u : Str} {now : Nat}
    {o : OriginResponse} {c : MirroredContent}
    (h : (fetch_and_store db k b t u (some o) now).1 = some c) :
    ∀ p ∈ c.headers, (p.1 == str "content-security-policy") = false := by
  unfold fetch_and_store at h
  simp only [Option.some.injEq] at h
  rw [← h]
  exact adjustHeaders_csp_free _ o.headers

/-- C8 (corrected form): no response assembled from a fresh fetch ever
carries a `content-security-policy` header: the origin's CSP is stripped by
the header-adjustment loop (`content-security-policy` is in
`IGNORE_HEADERS`), and the serve path only adds `cache-control`.  No nonce
exists anywhere in the pipeline. -/
theorem C8_no_csp_header (ua fid path : Str) (o : OriginResponse)
    (fr : Option FiddleRec) (now : Nat) :
    dictGet ((proxy_route ua fid path [] (some o) fr now).resp.headersOf)
      (str "content-security-policy") = none := by
  unfold proxy_route proxy_route_core
  simp only [get_by_key_name, dbLookup, List.find?]
  split <;> rename_i a fb db2 heq <;> (repeat' split at heq) <;> (try cases heq) <;>
    first
      | (rename_i content hsome
         exact serveContent_csp_free content fid _ fr (fetch_and_store_csp_free hsome))
      | simp [Resp.headersOf, dictGet, List.find?]

/-- C8 counterexample: a concrete HTML fetch in which script injection
occurs (the served body contains the injected `<script>`), the origin even
sent a CSP header, and the response carries no `content-security-policy`
header at all — hence no per-request nonce either. -/
theorem C8_no_csp_counterexample :
    containsSub (str "<script>")
      ((proxy_route (str "") (str "cats-q") (str "site.test") []
        (some ⟨str "http://site.test", 200,
          [(str "content-type", str "text/html"),
           (str "content-security-policy", str "default-src self")],
          str "<html><head></head></html>"⟩) none 0).resp.bodyOf) = true
    ∧ dictGet ((proxy_route (str "") (str "cats-q") (str "site.test") []
        (some ⟨str "http://site.test", 200,
          [(str "content-type", str "text/html"),
           (str "content-security-policy", str "default-src self")],
          str "<html><head></head></html>"⟩) none 0).resp.headersOf)
        (str "content-security-policy") = none := by
  refine ⟨by decide, by decide⟩

/-! ### Claim C10 -/

/-- C1 witness: content whose two references both carry the prefix
`/cats-d8c4vu/` is returned unchanged. -/
theorem C1_rewrite_fixes_prefixed_content_witness :
    transform_content
      (str "<img src=\"/cats-d8c4vu/example.com/a.png\"><a href=\"/cats-d8c4vu/example.com/b.html\">")
      (some (str "cats-d8c4vu")) (some (str "example.com")) none
      = str "<img src=\"/cats-d8c4vu/example.com/a.png\"><a href=\"/cats-d8c4vu/example.com/b.html\">" :=
  C1_rewrite_fixes_prefixed_content (str "cats-d8c4vu") (some (str "example.com")) none
    (str "<img src=\"/cats-d8c4vu/example.com/a.png\"><a href=\"/cats-d8c4vu/example.com/b.html\">")
    (by decide) (by decide)

/-! ### Claim C3 -/

/-- C3 (amended): when the accessed page's directory component is non-empty,
a directory-relative or traversal reference (one that is not empty, not a
`data:` URL, not already proxied, not absolute and not root-relative) is
resolved by joining it to the accessed directory and normalizing with
`posixpath.normpath` (which collapses `.` and `..` segments), and the result
is emitted under `/{sessionId}/{currentDomain}/`.  (When the accessed page
sits at the root, the directory context is empty and no normalization
happens — see the counterexample.) -/
theorem C3_relative_resolution (sid dom dir path : Str)
    (hsid : sid ≠ []) (hdom : dom ≠ []) (hdir : dir ≠ [])
    (hne : path ≠ [])
    (hq : path.all (fun c => !isQuoteCh c) = true)
    (hdata : (str "data:").isPrefixOf path = false)
    (hpre : ('/' :: sid ++ ['/']).isPrefixOf path = false)
    (hhttp : (str "http://").isPrefixOf path = false)
    (hhttps : (str "https://").isPrefixOf path = false)
    (hslash : path.take 1 ≠ ['/']) :
    clean_path path (some sid) (some dom) (some dir)
      = '/' :: sid ++ '/' :: dom ++ '/' :: lstripSlash (normpath (pyJoin dir path)) := by
  have hemp : path.isEmpty = false := by
    cases path with
    | nil => exact absurd rfl hne
    | cons a as => rfl
  have hstrip : stripChars isQuoteCh path = path := stripChars_of_all_not _ _ hq
  have hdd : (str "//").isPrefixOf path = false := by
    cases path with
    | nil => rfl
    | cons a as =>
      have ha : ('/' == a) = false := by
        cases hcc : ('/' == a) with
        | false => rfl
        | true =>
          exfalso
          apply hslash
          rw [← (beq_iff_eq.mp hcc)]
          rfl
      show List.isPrefixOf ('/' :: '/' :: []) (a :: as) = false
      simp [List.isPrefixOf, ha]
  have htrs : truthy (some sid) = true := by
    cases sid with
    | nil => exact absurd rfl hsid
    | cons a as => rfl
  have htrdm : truthy (some dom) = true := by
    cases dom with
    | nil => exact absurd rfl hdom
    | cons a as => rfl
  have htrd : truthy (some dir) = true := by
    cases dir with
    | nil => exact absurd rfl hdir
    | cons a as => rfl
  have hguard : (truthy (some sid) && ('/' :: getS (some sid) ++ ['/']).isPrefixOf path)
      = false := by
    have hg : ('/' :: getS (some sid) ++ ['/']).isPrefixOf path = false := by
      simpa [getS] using hpre
    rw [hg, Bool.and_false]
  have hpre2 : ¬ ('/' :: (sid ++ ['/']) <+: path) := by
    intro hcon
    have h2 := List.isPrefixOf_iff_prefix.mpr hcon
    rw [List.cons_append] at hpre
    rw [hpre] at h2
    exact Bool.false_ne_true h2
  unfold clean_path
  simp [hemp, hdata, hstrip, hguard, hhttp, hhttps, hdd, hslash, htrd, htrs, htrdm, getS,
    hpre2]

/-- C3 witness: scenario 2 of the spec — `../layout/x.png` accessed from
`http://a.example.com/foo/is/the/path.html` under session `cats-d8c4vu`, both
at the `clean_path` level (through the amended theorem) and end-to-end
through `TransformContent`. -/
theorem C3_relative_resolution_witness :
    clean_path (str "../layout/x.png") (some (str "cats-d8c4vu"))
        (some (str "a.example.com")) (some (str "foo/is/the/"))
      = str "/cats-d8c4vu/a.example.com/foo/is/layout/x.png"
    ∧ TransformContent (str "cats-d8c4vu/a.example.com")
        (str "http://a.example.com/foo/is/the/path.html")
        (str "<img src=\"../layout/x.png\">")
      = str "<img src=\"/cats-d8c4vu/a.example.com/foo/is/layout/x.png\">" := by
  constructor
  · have h := C3_relative_resolution (str "cats-d8c4vu") (str "a.example.com")
      (str "foo/is/the/") (str "../layout/x.png") (by decide) (by decide) (by decide)
      (by decide) (by decide) (by decide) (by decide) (by decide) (by decide) (by decide)
    rw [h]
    decide
  · decide

/-- C3 counterexample: the claim quantifies over *every* traversal reference,
but when the accessed page sits at the root directory (accessed URL
`http://example.com/x.html`, directory context empty) the reference
`../a.png` is **not** normalized: the code emits
`/cats-d8c4vu/example.com/../a.png`, not the collapsed
`/cats-d8c4vu/example.com/a.png`. -/
theorem C3_root_page_no_collapse_counterexample :
    TransformContent (str "cats-d8c4vu/example.com") (str "http://example.com/x.html")
      (str "<img src=\"../a.png\">")
      = str "<img src=\"/cats-d8c4vu/example.com/../a.png\">"
    ∧ str "<img src=\"/cats-d8c4vu/example.com/../a.png\">"
      ≠ str "<img src=\"/cats-d8c4vu/example.com/a.png\">" := by
  refine ⟨by decide, by decide⟩

/-! ### Claim C2 -/

theorem http_not_prefix_https (X : Str) :
    (str "http://").isPrefixOf (str "https://" ++ X) = false := by
  show List.isPrefixOf ('h' :: 't' :: 't' :: 'p' :: ':' :: '/' :: '/' :: [])
    ('h' :: 't' :: 't' :: 'p' :: 's' :: ':' :: '/' :: '/' :: X) = false
  have hx : (':' == 's') = false := by decide
  simp [List.isPrefixOf, hx]

theorem drop5_http (X : Str) : (str "http://" ++ X).drop 5 = '/' :: '/' :: X := rfl

theorem drop6_https (X : Str) : (str "https://" ++ X).drop 6 = '/' :: '/' :: X := rfl

/-- The evaluation of the `urlparse` model on a well-formed absolute URL:
the netloc is the host, the path is `p`, query and fragment are the parts
after their markers, and `params` splitting leaves `p` untouched. -/
theorem pyUrlparse_absolute (host p q f : Str)
    (hhost : host.all (fun c => !(c == '/' || c == '?' || c == '#' || isQuoteCh c)) = true)
    (hp0 : p = [] ∨ ∃ pi, p = '/' :: pi)
    (hp : p.all (fun c => !(c == '?' || c == '#' || isQuoteCh c)) = true)
    (hparams : splitParams p = p)
    (hq0 : q = [] ∨ ∃ qi, q = '?' :: qi ∧ qi.all (fun c => !(c == '#' || isQuoteCh c)) = true)
    (hf0 : f = [] ∨ ∃ fi, f = '#' :: fi) :
    pyUrlparse (str "http://" ++ (host ++ (p ++ (q ++ f))))
        = ⟨host, p, q.drop 1, f.drop 1⟩
    ∧ pyUrlparse (str "https://" ++ (host ++ (p ++ (q ++ f))))
        = ⟨host, p, q.drop 1, f.drop 1⟩ := by
  have hhostSharp : host.all (fun a => !(a == '#')) = true := by
    refine all_mono ?_ host hhost
    intro c hc
    simp only [Bool.not_eq_true', Bool.or_eq_false_iff] at hc ⊢
    exact hc.1.2
  have hpSharp : p.all (fun a => !(a == '#')) = true := by
    refine all_mono ?_ p hp
    intro c hc
    simp only [Bool.not_eq_true', Bool.or_eq_false_iff] at hc ⊢
    exact hc.1.2
  have hpQm : p.all (fun a => !(a == '?')) = true := by
    refine all_mono ?_ p hp
    intro c hc
    simp only [Bool.not_eq_true', Bool.or_eq_false_iff] at hc ⊢
    exact hc.1.1
  have hqSharp : q.all (fun a => !(a == '#')) = true := by
    rcases hq0 with rfl | ⟨qi, rfl, hqi⟩
    · rfl
    · simp only [List.all_cons, Bool.and_eq_true]
      refine ⟨by decide, ?_⟩
      refine all_mono ?_ qi hqi
      intro c hc
      simp only [Bool.not_eq_true', Bool.or_eq_false_iff] at hc ⊢
      exact hc.1
  have hostP : host.all (fun c => decide ¬ (c = '/' ∨ c = '?')) = true := by
    refine all_mono ?_ host hhost
    intro c hc
    simp only [Bool.not_eq_true', Bool.or_eq_false_iff] at hc
    have h1 : c ≠ '/' := by simpa using hc.1.1.1
    have h2 : c ≠ '?' := by simpa using hc.1.1.2
    simp [h1, h2]
  have hbody : (host ++ (p ++ q)).all (fun a => !(a == '#')) = true := by
    simp only [List.all_append, Bool.and_eq_true]
    exact ⟨hhostSharp, hpSharp, hqSharp⟩
  -- the fragment split of the full URL, for both schemes
  have hsp : ∀ sch : Str, sch.all (fun a => !(a == '#')) = true →
      splitFirst '#' (sch ++ (host ++ (p ++ (q ++ f))))
        = (sch ++ (host ++ (p ++ q)), f.drop 1) := by
    intro sch hsch
    have hall : (sch ++ (host ++ (p ++ q))).all (fun a => !(a == '#')) = true := by
      simp only [List.all_append, Bool.and_eq_true] at hbody ⊢
      exact ⟨hsch, hbody⟩
    rcases hf0 with rfl | ⟨fi, rfl⟩
    · simpa using splitFirst_of_all_not '#' _ hall
    · have := splitFirst_append_cons '#' (sch ++ (host ++ (p ++ q))) fi hall
      simpa [List.append_assoc] using this
  -- the netloc/path/query computation shared by both schemes
  have hnet : (host ++ (p ++ q)).takeWhile (fun c => decide ¬ (c = '/' ∨ c = '?')) = host := by
    rw [takeWhile_append_of_all _ hostP]
    rcases hp0 with rfl | ⟨pi, rfl⟩
    · rcases hq0 with rfl | ⟨qi, rfl, -⟩
      · simp
      · simp [List.takeWhile]
    · simp [List.takeWhile]
  have hrest : (host ++ (p ++ q)).dropWhile (fun c => decide ¬ (c = '/' ∨ c = '?')) = p ++ q := by
    rw [dropWhile_append_of_all _ hostP]
    rcases hp0 with rfl | ⟨pi, rfl⟩
    · rcases hq0 with rfl | ⟨qi, rfl, -⟩
      · simp
      · simp [List.dropWhile]
    · simp [List.dropWhile]
  have hqsplit : splitFirst '?' (p ++ q) = (p, q.drop 1) := by
    rcases hq0 with rfl | ⟨qi, rfl, -⟩
    · simpa using splitFirst_of_all_not '?' p hpQm
    · simpa using splitFirst_append_cons '?' p qi hpQm
  have ht2 : ('/' :: '/' :: (host ++ (p ++ q))).take 2 = str "//" := rfl
  have hd2 : ('/' :: '/' :: (host ++ (p ++ q))).drop 2 = host ++ (p ++ q) := rfl
  constructor
  · unfold pyUrlparse
    rw [hsp (str "http://") (by decide)]
    simp only [isPrefixOf_append_self, if_true, drop5_http, ht2, hd2, if_pos rfl,
      hnet, hrest, hqsplit, hparams]
  · unfold pyUrlparse
    rw [hsp (str "https://") (by decide)]
    simp only [http_not_prefix_https, Bool.false_eq_true, if_false,
      isPrefixOf_append_self, if_true, drop6_https, ht2, hd2, if_pos rfl,
      hnet, hrest, hqsplit, hparams]

theorem data_not_prefix_http (X : Str) :
    (str "data:").isPrefixOf (str "http://" ++ X) = false := by
  show List.isPrefixOf ('d' :: 'a' :: 't' :: 'a' :: ':' :: [])
    ('h' :: 't' :: 't' :: 'p' :: ':' :: '/' :: '/' :: X) = false
  have hx : ('d' == 'h') = false := by decide
  simp [List.isPrefixOf, hx]

theorem data_not_prefix_https (X : Str) :
    (str "data:").isPrefixOf (str "https://" ++ X) = false := by
  show List.isPrefixOf ('d' :: 'a' :: 't' :: 'a' :: ':' :: [])
    ('h' :: 't' :: 't' :: 'p' :: 's' :: ':' :: '/' :: '/' :: X) = false
  have hx : ('d' == 'h') = false := by decide
  simp [List.isPrefixOf, hx]

theorem slash_prefix_of_http_false (s X : Str) :
    ('/' :: s ++ ['/']).isPrefixOf (str "http://" ++ X) = false := by
  show (('/' :: s) ++ ['/']).isPrefixOf
    ('h' :: 't' :: 't' :: 'p' :: ':' :: '/' :: '/' :: X) = false
  have hx : ('/' == 'h') = false := by decide
  simp [List.cons_append, List.isPrefixOf, hx]

theorem slash_prefix_of_https_false (s X : Str) :
    ('/' :: s ++ ['/']).isPrefixOf (str "https://" ++ X) = false := by
  show (('/' :: s) ++ ['/']).isPrefixOf
    ('h' :: 't' :: 't' :: 'p' :: 's' :: ':' :: '/' :: '/' :: X) = false
  have hx : ('/' == 'h') = false := by decide
  simp [List.cons_append, List.isPrefixOf, hx]

theorem http_not_prefix_slashes (X : Str) :
    (str "http://").isPrefixOf ('/' :: X) = false := by
  show List.isPrefixOf ('h' :: 't' :: 't' :: 'p' :: ':' :: '/' :: '/' :: []) ('/' :: X) = false
  have hx : ('h' == '/') = false := by decide
  simp [List.isPrefixOf, hx]

theorem https_not_prefix_slashes (X : Str) :
    (str "https://").isPrefixOf ('/' :: X) = false := by
  show List.isPrefixOf ('h' :: 't' :: 't' :: 'p' :: 's' :: ':' :: '/' :: '/' :: []) ('/' :: X)
    = false
  have hx : ('h' == '/') = false := by decide
  simp [List.isPrefixOf, hx]

theorem data_not_prefix_slashes (X : Str) :
    (str "data:").isPrefixOf ('/' :: X) = false := by
  show List.isPrefixOf ('d' :: 'a' :: 't' :: 'a' :: ':' :: []) ('/' :: X) = false
  have hx : ('d' == '/') = false := by decide
  simp [List.isPrefixOf, hx]

/-- C2 (amended): an absolute `http://` or `https://` reference whose host is
non-empty, whose path carries no stray `?`/`#` and whose **last** path segment
carries no `;` (equivalently, `urlparse`'s params split leaves the path
unchanged — earlier segments may contain `;`), whose query (when present) is
non-empty and `#`-free, and whose fragment (when present) is non-empty,
rewrites to `/{sessionId}/{host}{path}{query}{fragment}` — the scheme is
stripped and http and https produce the identical result; a protocol-relative
reference `//host/rest` rewrites to `/{sessionId}/{host}/rest` with everything
after the host preserved verbatim.  (Degenerate cases the claim glosses over
are really dropped by the code: a `;params` suffix of the last path segment,
an empty `?` query or an empty `#` fragment vanish, and a protocol-relative
reference with no `/` after the host gains a trailing slash — see the
counterexample.) -/
theorem C2_absolute_url_rewrite (sid : Str) (dom dir : Option Str) (host p q f : Str)
    (hsid : sid ≠ []) (hsid2 : sid.take 1 ≠ ['/'])
    (_hhost_ne : host ≠ [])
    (hhost : host.all (fun c => !(c == '/' || c == '?' || c == '#' || isQuoteCh c)) = true)
    (hp0 : p = [] ∨ ∃ pi, p = '/' :: pi)
    (hp : p.all (fun c => !(c == '?' || c == '#' || isQuoteCh c)) = true)
    (hparams : splitParams p = p)
    (hq0 : q = [] ∨ ∃ qi, q = '?' :: qi ∧ qi ≠ []
      ∧ qi.all (fun c => !(c == '#' || isQuoteCh c)) = true)
    (hf0 : f = [] ∨ ∃ fi, f = '#' :: fi ∧ fi ≠ [] ∧ fi.all (fun c => !isQuoteCh c) = true) :
    clean_path (str "http://" ++ (host ++ (p ++ (q ++ f)))) (some sid) dom dir
        = '/' :: sid ++ '/' :: (host ++ (p ++ (q ++ f)))
    ∧ clean_path (str "https://" ++ (host ++ (p ++ (q ++ f)))) (some sid) dom dir
        = '/' :: sid ++ '/' :: (host ++ (p ++ (q ++ f)))
    ∧ (∀ rest2 : Str, rest2.all (fun c => !isQuoteCh c) = true →
        clean_path ('/' :: '/' :: (host ++ '/' :: rest2)) (some sid) dom dir
          = '/' :: sid ++ '/' :: (host ++ '/' :: rest2)) := by
  have hq0' : q = [] ∨ ∃ qi, q = '?' :: qi
      ∧ qi.all (fun c => !(c == '#' || isQuoteCh c)) = true :=
    hq0.imp id (fun ⟨qi, h1, _, h3⟩ => ⟨qi, h1, h3⟩)
  have hf0' : f = [] ∨ ∃ fi, f = '#' :: fi :=
    hf0.imp id (fun ⟨fi, h1, _, _⟩ => ⟨fi, h1⟩)
  have hparse := pyUrlparse_absolute host p q f hhost hp0 hp hparams hq0' hf0'
  have htrs : truthy (some sid) = true := by
    cases sid with
    | nil => exact absurd rfl hsid
    | cons a as => rfl
  have hhostQ : host.all (fun c => !isQuoteCh c) = true := by
    refine all_mono ?_ host hhost
    intro c hc
    simp only [Bool.not_eq_true', Bool.or_eq_false_iff] at hc ⊢
    exact hc.2
  have hpQ : p.all (fun c => !isQuoteCh c) = true := by
    refine all_mono ?_ p hp
    intro c hc
    simp only [Bool.not_eq_true', Bool.or_eq_false_iff] at hc ⊢
    exact hc.2
  have hqQ : q.all (fun c => !isQuoteCh c) = true := by
    rcases hq0 with rfl | ⟨qi, rfl, -, hqi⟩
    · rfl
    · simp only [List.all_cons, Bool.and_eq_true]
      refine ⟨by decide, ?_⟩
      refine all_mono ?_ qi hqi
      intro c hc
      simp only [Bool.not_eq_true', Bool.or_eq_false_iff] at hc ⊢
      exact hc.2
  have hfQ : f.all (fun c => !isQuoteCh c) = true := by
    rcases hf0 with rfl | ⟨fi, rfl, -, hfi⟩
    · rfl
    · simp only [List.all_cons, Bool.and_eq_true]
      exact ⟨by decide, hfi⟩
  have hbodyQ : (host ++ (p ++ (q ++ f))).all (fun c => !isQuoteCh c) = true := by
    simp only [List.all_append, Bool.and_eq_true]
    exact ⟨hhostQ, hpQ, hqQ, hfQ⟩
  have hqif : (if q.tail = [] then ([] : Str) else '?' :: q.tail) = q := by
    rcases hq0 with rfl | ⟨qi, rfl, hqine, -⟩
    · rfl
    · cases qi with
      | nil => exact absurd rfl hqine
      | cons b bs => rfl
  have hfif : (if f.tail = [] then ([] : Str) else '#' :: f.tail) = f := by
    rcases hf0 with rfl | ⟨fi, rfl, hfine, -⟩
    · rfl
    · cases fi with
      | nil => exact absurd rfl hfine
      | cons b bs => rfl
  have hschne1 : str "http://" ≠ ([] : Str) := by decide
  have hschne2 : str "https://" ≠ ([] : Str) := by decide
  refine ⟨?_, ?_, ?_⟩
  · have hstrip : stripChars isQuoteCh (str "http://" ++ (host ++ (p ++ (q ++ f))))
        = str "http://" ++ (host ++ (p ++ (q ++ f))) := by
      refine stripChars_of_all_not _ _ ?_
      simp only [List.all_append, Bool.and_eq_true]
      exact ⟨by decide, by simpa [List.all_append] using hbodyQ⟩
    have hg : ¬ ('/' :: (sid ++ ['/']) <+: str "http://" ++ (host ++ (p ++ (q ++ f)))) := by
      intro hcon
      have h2 := List.isPrefixOf_iff_prefix.mpr hcon
      rw [← List.cons_append, slash_prefix_of_http_false sid _] at h2
      exact Bool.false_ne_true h2
    unfold clean_path
    simp [data_not_prefix_http, hg, isPrefixOf_append_self,
      hstrip, hparse.1, hqif, hfif, htrs, getS, hschne1]
  · have hstrip : stripChars isQuoteCh (str "https://" ++ (host ++ (p ++ (q ++ f))))
        = str "https://" ++ (host ++ (p ++ (q ++ f))) := by
      refine stripChars_of_all_not _ _ ?_
      simp only [List.all_append, Bool.and_eq_true]
      exact ⟨by decide, by simpa [List.all_append] using hbodyQ⟩
    have hg : ¬ ('/' :: (sid ++ ['/']) <+: str "https://" ++ (host ++ (p ++ (q ++ f)))) := by
      intro hcon
      have h2 := List.isPrefixOf_iff_prefix.mpr hcon
      rw [← List.cons_append, slash_prefix_of_https_false sid _] at h2
      exact Bool.false_ne_true h2
    unfold clean_path
    simp [data_not_prefix_https, hg, http_not_prefix_https,
      isPrefixOf_append_self, hstrip, hparse.2, hqif, hfif, htrs, getS, hschne2]
  · intro rest2 hr2
    have hstrip : stripChars isQuoteCh ('/' :: '/' :: (host ++ '/' :: rest2))
        = '/' :: '/' :: (host ++ '/' :: rest2) := by
      refine stripChars_of_all_not _ _ ?_
      simp only [List.all_cons, List.all_append, Bool.and_eq_true]
      exact ⟨by decide, by decide, hhostQ, by decide, hr2⟩
    have hguard : ('/' :: getS (some sid) ++ ['/']).isPrefixOf
        ('/' :: '/' :: (host ++ '/' :: rest2)) = false := by
      cases sid with
      | nil => exact absurd rfl hsid
      | cons a as =>
        have ha : (a == '/') = false := by
          cases hcc : a == '/' with
          | false => rfl
          | true =>
            exfalso
            apply hsid2
            rw [show (a :: as).take 1 = [a] from rfl, beq_iff_eq.mp hcc]
        simp [getS, List.cons_append, List.isPrefixOf, ha]
    have hg : ¬ ('/' :: (sid ++ ['/']) <+: '/' :: '/' :: (host ++ '/' :: rest2)) := by
      intro hcon
      have h2 := List.isPrefixOf_iff_prefix.mpr hcon
      rw [← List.cons_append] at h2
      rw [show ('/' :: sid) ++ ['/'] = '/' :: getS (some sid) ++ ['/'] from rfl, hguard] at h2
      exact Bool.false_ne_true h2
    have hostP2 : host.all (fun c => decide ¬ (c = '/')) = true := by
      refine all_mono ?_ host hhost
      intro c hc
      simp only [Bool.not_eq_true', Bool.or_eq_false_iff] at hc
      have h1 : c ≠ '/' := by simpa using hc.1.1.1
      simp [h1]
    have hdomain : (host ++ '/' :: rest2).takeWhile (fun c => decide ¬ (c = '/')) = host := by
      rw [takeWhile_append_of_all _ hostP2]
      simp [List.takeWhile]
    have hrest : (host ++ '/' :: rest2).dropWhile (fun c => decide ¬ (c = '/'))
        = '/' :: rest2 := by
      rw [dropWhile_append_of_all _ hostP2]
      simp [List.dropWhile]
    have hdd : (str "//").isPrefixOf ('/' :: '/' :: (host ++ '/' :: rest2)) = true := by
      show List.isPrefixOf ('/' :: '/' :: []) ('/' :: '/' :: (host ++ '/' :: rest2)) = true
      simp [List.isPrefixOf]
    have hg2 : ¬ (sid ++ ['/'] <+: '/' :: (host ++ '/' :: rest2)) := by
      cases sid with
      | nil => exact absurd rfl hsid
      | cons a as =>
        intro hcon
        obtain ⟨t, ht⟩ := hcon
        have ha : a = '/' := by
          have h3 := congrArg List.head? ht
          simpa using h3
        exact hsid2 (by rw [show (a :: as).take 1 = [a] from rfl, ha])
    have hostP3 : host.all (fun x => !decide (x = '/')) = true := by
      refine all_mono ?_ host hhost
      intro c hc
      simp only [Bool.not_eq_true', Bool.or_eq_false_iff] at hc
      have h1 : c ≠ '/' := by simpa using hc.1.1.1
      simp [h1]
    have hdomain2 : (host ++ '/' :: rest2).takeWhile (fun x => !decide (x = '/')) = host := by
      rw [takeWhile_append_of_all _ hostP3]
      simp [List.takeWhile]
    have hrest3 : (host ++ '/' :: rest2).dropWhile (fun x => !decide (x = '/'))
        = '/' :: rest2 := by
      rw [dropWhile_append_of_all _ hostP3]
      simp [List.dropWhile]
    have hdrop2 : List.drop 2 (stripChars isQuoteCh ('/' :: '/' :: (host ++ '/' :: rest2)))
        = host ++ '/' :: rest2 := by
      rw [hstrip]
      rfl
    unfold clean_path
    simp [data_not_prefix_slashes, hstrip, hg, hg2, http_not_prefix_slashes,
      https_not_prefix_slashes, hdd, hdomain, hdomain2, hrest, hrest3, hdrop2, htrs, getS]

/-- C2 witness: the amended rewrite rule instantiated on the spec's own
scenario — `//images.example.com/a.css?v=1` inside session `cats-d8c4vu`
becomes `/cats-d8c4vu/images.example.com/a.css?v=1`, the http:// and https://
spellings give the identical result, and the end-to-end transformation of an
`<img src="...">` tag agrees; a second instantiation shows a `;` in a
non-final path segment (`/a;b/c.css`) is preserved — only a `;` in the last
segment starts a discarded params field. -/
theorem C2_absolute_url_rewrite_witness :
    clean_path (str "http://images.example.com/a.css?v=1")
        (some (str "cats-d8c4vu")) none none
      = str "/cats-d8c4vu/images.example.com/a.css?v=1"
    ∧ clean_path (str "https://images.example.com/a.css?v=1")
        (some (str "cats-d8c4vu")) none none
      = str "/cats-d8c4vu/images.example.com/a.css?v=1"
    ∧ clean_path (str "//images.example.com/a.css?v=1")
        (some (str "cats-d8c4vu")) none none
      = str "/cats-d8c4vu/images.example.com/a.css?v=1"
    ∧ clean_path (str "http://h/a;b/c.css") (some (str "cats-d8c4vu")) none none
      = str "/cats-d8c4vu/h/a;b/c.css"
    ∧ TransformContent (str "cats-d8c4vu/example.com") (str "http://example.com")
        (str "<img src=\"//images.example.com/a.css?v=1\"/>")
      = str "<img src=\"/cats-d8c4vu/images.example.com/a.css?v=1\"/>" := by
  have h := C2_absolute_url_rewrite (str "cats-d8c4vu") none none
      (str "images.example.com") (str "/a.css") (str "?v=1") []
      (by decide) (by decide) (by decide) (by decide)
      (Or.inr ⟨str "a.css", by decide⟩) (by decide) (by decide)
      (Or.inr ⟨str "v=1", by decide, by decide, by decide⟩)
      (Or.inl rfl)
  have hsemi := C2_absolute_url_rewrite (str "cats-d8c4vu") none none
      (str "h") (str "/a;b/c.css") [] []
      (by decide) (by decide) (by decide) (by decide)
      (Or.inr ⟨str "a;b/c.css", by decide⟩) (by decide) (by decide)
      (Or.inl rfl) (Or.inl rfl)
  obtain ⟨h1, h2, h3⟩ := h
  refine ⟨?_, ?_, ?_, ?_, ?_⟩
  · rw [show str "http://images.example.com/a.css?v=1"
        = str "http://" ++ (str "images.example.com" ++ (str "/a.css" ++ (str "?v=1" ++ [])))
        from by decide, h1]
    decide
  · rw [show str "https://images.example.com/a.css?v=1"
        = str "https://" ++ (str "images.example.com" ++ (str "/a.css" ++ (str "?v=1" ++ [])))
        from by decide, h2]
    decide
  · rw [show str "//images.example.com/a.css?v=1"
        = '/' :: '/' :: (str "images.example.com" ++ '/' :: str "a.css?v=1")
        from by decide, h3 (str "a.css?v=1") (by decide)]
    decide
  · rw [show str "http://h/a;b/c.css"
        = str "http://" ++ (str "h" ++ (str "/a;b/c.css" ++ ([] ++ [])))
        from by decide, hsemi.1]
    decide
  · decide

/-- C2 counterexample to the claim as literally stated ("the path and query
string are preserved"): a `;params` suffix on the last path segment is split
off by `urlparse` and discarded by `clean_path`, so the rewritten reference is
NOT `/{sessionId}/{host}{path}` for `path = /p;x` — the `;x` vanishes. -/
theorem C2_params_dropped_counterexample :
    clean_path (str "http://h/p;x") (some (str "cats-d8c4vu")) none none
      = str "/cats-d8c4vu/h/p"
    ∧ str "/cats-d8c4vu/h/p" ≠ str "/cats-d8c4vu/h/p;x" := by
  exact ⟨by decide, by decide⟩

end Webfiddle
